import Mathlib

/-!
Verification of the IslandJSON library (a C library for representing,
parsing and serializing JSON documents).

This file gives a shallow embedding of the algorithmically relevant parts of
the C sources into Lean.  Bytes are modelled as `Nat` (a `uint8_t` value is
always `< 256`), byte buffers as `List Nat`, and the in-out pointer pairs of
the C decoding routines as explicit state records.  Growable output buffers
(`struct ustring`) are modelled as the list of bytes they hold; allocation
failure paths are not modelled except where a function can return a
distinguished "no memory" result that callers observe.

Definitions mirror the corresponding C functions of `src/decode.c`,
`src/escape.c`, `src/ustring.c`, `src/json.c` and `src/printing.c`, keeping
their names; they come first, with the few length lemmas the recursive
definitions need for termination.  The theorems settling the frozen claims,
and their supporting lemmas, follow.

Claim theorems: C1 `claim_C1_parse_status_collapsed`,
C2 `claim_C2_unescape_reencodes_high_bytes`, C3 `claim_C3_counterexample`
and `claim_C3_trailing_backslash_copied`, C4 `claim_C4_array_remove`,
C5 `claim_C5_utf8_decode_rejections`, C6 `claim_C6_surrogate_pair_decoding`,
C7 `claim_C7_object_add_replace_or_append`, C8 `claim_C8_layout_heuristic`,
C9 `claim_C9_print_invalid_byte_recovery`,
C10 `claim_C10_utf8_encode_decode_roundtrip`.
-/

namespace IslandJSON

/-! ## Part 1: the embedding -/

/-- Status values of `enum json_status` in `include/json.h`. -/
inductive json_status where
  | JSON_SUCCESS
  | JSON_UNEXPECTED_CHARACTER
  | JSON_UNEXPECTED_FILE_END
  | JSON_INVALID_ESCAPE
  | JSON_INVALID_UNICODE
deriving DecidableEq, Repr

/-! ## UTF-8 encoding: `ustring_push` (src/ustring.c)

`ustring_push` converts a Unicode code point to UTF-8 bytes and appends them
to a growable buffer.  `ustring_push_bytes` is the byte computation from its
body (the local `bytes` array and `count`); `ustring_push` appends them to
the buffer, modelled as the list of bytes held so far.  The C function can
also fail on allocation failure, which is not modelled (memory is treated as
unbounded); the `none` result models the `code > 0x10FFFF` failure return. -/

def ustring_push_bytes (code : Nat) : Option (List Nat) :=
  if code ≤ 0x7F then
    some [code]
  else if code ≤ 0x7FF then
    some [0xC0 ||| ((code >>> 6) &&& 0x1F),
          0x80 ||| (code &&& 0x3F)]
  else if code ≤ 0xFFFF then
    some [0xE0 ||| ((code >>> 12) &&& 0x0F),
          0x80 ||| ((code >>> 6) &&& 0x3F),
          0x80 ||| (code &&& 0x3F)]
  else if code ≤ 0x10FFFF then
    some [0xF0 ||| ((code >>> 18) &&& 0x07),
          0x80 ||| ((code >>> 12) &&& 0x3F),
          0x80 ||| ((code >>> 6) &&& 0x3F),
          0x80 ||| (code &&& 0x3F)]
  else
    none

def ustring_push (dst : List Nat) (code : Nat) : Option (List Nat) :=
  (ustring_push_bytes code).map (dst ++ ·)

/-! ## Escape decoding (src/escape.c) -/

/-- Mirrors `read_hex`: converts a hex character to its value, `none` for the
`-1` error return. -/
def read_hex (c : Nat) : Option Nat :=
  if 0x30 ≤ c ∧ c ≤ 0x39 then some (c - 0x30)
  else if 0x61 ≤ c ∧ c ≤ 0x66 then some (c - 0x61 + 10)
  else if 0x41 ≤ c ∧ c ≤ 0x46 then some (c - 0x41 + 10)
  else none

/-- Loop body of `read_u16`: reads `n` more hex digits into `code`.  The C
source advances `*src` once per digit; here the remaining input is the list
tail.  (On the `none` paths the C function has consumed a prefix, but every
caller abandons the scan on error, so only the success consumption is
observable.) -/
def read_u16_loop (src : List Nat) (code : Nat) : Nat → Option (Nat × List Nat)
  | 0 => some (code, src)
  | n + 1 =>
    match src with
    | [] => none
    | b :: rest =>
      match read_hex b with
      | none => none
      | some digit => read_u16_loop rest ((code <<< 4) ||| digit) n

/-- Mirrors `read_u16`: reads a 4-digit hexadecimal code.  The guard models
`*src + 4 > end`. -/
def read_u16 (src : List Nat) : Option (Nat × List Nat) :=
  if src.length < 4 then none else read_u16_loop src 0 4

/-- Mirrors `read_utf16`: parses the digits of a `\uXXXX` escape (the input
starts after the `\u`), combining surrogate pairs.  Returns the code point
and the remaining input, or `none` for the `-1` error return. -/
def read_utf16 (src : List Nat) : Option (Nat × List Nat) :=
  match read_u16 src with
  | none => none
  | some (code, rest) =>
    if code < 0xD800 then
      some (code, rest)
    else if code ≤ 0xDBFF then
      match rest with
      | b1 :: b2 :: rest2 =>
        if b1 = 0x5C then
          if b2 = 0x75 then
            match read_u16 rest2 with
            | none => none
            | some (pair, rest3) =>
              if pair < 0xDC00 ∨ 0xDFFF < pair then none
              else some (0x10000 + ((code - 0xD800) <<< 10) + (pair - 0xDC00), rest3)
          else none
        else none
      | _ => none
    else
      none

/-- Result of `json_unescape_string`: `ok` is a returned buffer together with
`*error = JSON_SUCCESS`; `fail e` is the `NULL` return with `*error = e`;
`nomem` is the `NULL` return of the allocation-failure paths (including the
`ustring_push` failure), which leave `*error` unset. -/
inductive unescape_result where
  | ok (s : List Nat)
  | fail (e : json_status)
  | nomem
deriving DecidableEq, Repr

/-- The escape-character switch in `json_unescape_string` (the non-`u` cases
after a backslash); `none` is the `default:` error case. -/
def escape_char (c : Nat) : Option Nat :=
  if c = 0x22 then some 0x22
  else if c = 0x5C then some 0x5C
  else if c = 0x2F then some 0x2F
  else if c = 0x62 then some 0x08
  else if c = 0x66 then some 0x0C
  else if c = 0x6E then some 0x0A
  else if c = 0x72 then some 0x0D
  else if c = 0x74 then some 0x09
  else none

/-! The next three lemmas bound the input consumed by `read_u16` and
`read_utf16`; the recursion of `json_unescape_loop` terminates by them. -/

theorem read_u16_loop_length {src rest : List Nat} {code value : Nat} :
    ∀ {n : Nat}, read_u16_loop src code n = some (value, rest) →
      rest.length + n = src.length := by
  intro n
  induction n generalizing src code with
  | zero => intro h; simp [read_u16_loop] at h; simp [h.2]
  | succ n ih =>
    intro h
    match src with
    | [] => simp [read_u16_loop] at h
    | b :: tail =>
      simp only [read_u16_loop] at h
      match hx : read_hex b with
      | none => rw [hx] at h; simp at h
      | some d =>
        rw [hx] at h
        have := ih h
        simp [List.length_cons]
        omega

theorem read_u16_length {src rest : List Nat} {value : Nat}
    (h : read_u16 src = some (value, rest)) : rest.length + 4 = src.length := by
  unfold read_u16 at h
  split at h
  · exact absurd h (by simp)
  · exact read_u16_loop_length h

theorem read_utf16_length {src rest : List Nat} {code : Nat}
    (h : read_utf16 src = some (code, rest)) : rest.length ≤ src.length := by
  match hu : read_u16 src with
  | none =>
    rw [read_utf16, hu] at h
    exact absurd h (by simp)
  | some (c0, r0) =>
    have hl0 := read_u16_length hu
    rw [read_utf16, hu] at h
    simp only at h
    split at h
    · simp only [Option.some.injEq, Prod.mk.injEq] at h
      obtain ⟨h1, h2⟩ := h
      subst h2
      omega
    · split at h
      · match r0, h, hl0 with
        | [], h, hl0 => simp at h
        | [b], h, hl0 => simp at h
        | b1 :: b2 :: r2, h, hl0 =>
          simp only at h
          split at h
          · split at h
            · match hu2 : read_u16 r2, h with
              | none, h => simp at h
              | some (pair, r3), h =>
                have hl2 := read_u16_length hu2
                simp only at h
                split at h
                · simp at h
                · simp only [Option.some.injEq, Prod.mk.injEq] at h
                  obtain ⟨h1, h2⟩ := h
                  subst h2
                  simp only [List.length_cons] at hl0
                  omega
            · simp at h
          · simp at h
      · simp at h

/-- Mirrors the scan loop of `json_unescape_string`; `result` is the output
buffer accumulated so far.  The C loop condition `*src == '\\' && (src + 1 <
end)` takes the escape branch only when at least one byte follows the
backslash; a backslash that is the last input byte therefore goes through
the literal-copy branch. -/
def json_unescape_loop (src : List Nat) (result : List Nat) : unescape_result :=
  match src with
  | [] => .ok result
  | [b] =>
    match ustring_push result b with
    | none => .nomem
    | some result2 => json_unescape_loop [] result2
  | b :: c :: rest =>
    if b = 0x5C then
      if c = 0x75 then
        match h : read_utf16 rest with
        | none => .fail .JSON_INVALID_UNICODE
        | some (code, rest2) =>
          match ustring_push result code with
          | none => .nomem
          | some result2 => json_unescape_loop rest2 result2
      else
        match escape_char c with
        | none => .fail .JSON_INVALID_ESCAPE
        | some code =>
          match ustring_push result code with
          | none => .nomem
          | some result2 => json_unescape_loop rest result2
    else
      match ustring_push result b with
      | none => .nomem
      | some result2 => json_unescape_loop (c :: rest) result2
termination_by src.length
decreasing_by
  · simp
  · have := read_utf16_length h
    simp only [List.length_cons]
    omega
  · simp only [List.length_cons]
    omega
  · simp only [List.length_cons]
    omega

/-- Mirrors `json_unescape_string` (src/escape.c): unescape the raw bytes of
a string literal body, starting from a fresh output buffer. -/
def json_unescape_string (src : List Nat) : unescape_result :=
  json_unescape_loop src []

/-! ## UTF-8 decoding (src/decode.c)

The C functions receive `const uint8_t **ptr` (in-out cursor) and
`uint32_t *out`; both are modelled by the record `DecPtr`.  On failure the C
functions return `false` and leave `*ptr` and `*out` untouched; the Lean
embedding returns `(false, s)` with the state unchanged.  The buffer `buf`
together with an index models the region between `*ptr` and `end`. -/

structure DecPtr where
  pos : Nat
  out : Nat
deriving DecidableEq, Repr

/-- Mirrors `decode_2byte_UTF8`. -/
def decode_2byte_UTF8 (buf : List Nat) (s : DecPtr) : Bool × DecPtr :=
  let p := s.pos
  if buf.length ≤ p then (false, s)
  else
    let c0 := buf.getD p 0
    if buf.length - p < 2 then (false, s)
    else
      let c1 := buf.getD (p + 1) 0
      if ¬ (c1 &&& 0xC0 = 0x80) then (false, s)
      else
        let code := ((c0 &&& 0x1F) <<< 6) ||| (c1 &&& 0x3F)
        if code < 0x80 then (false, s)
        else (true, ⟨p + 2, code⟩)

/-- Mirrors `decode_3byte_UTF8`. -/
def decode_3byte_UTF8 (buf : List Nat) (s : DecPtr) : Bool × DecPtr :=
  let p := s.pos
  if buf.length ≤ p then (false, s)
  else
    let c0 := buf.getD p 0
    if buf.length - p < 3 then (false, s)
    else
      let c1 := buf.getD (p + 1) 0
      let c2 := buf.getD (p + 2) 0
      if ¬ (c1 &&& 0xC0 = 0x80) ∨ ¬ (c2 &&& 0xC0 = 0x80) then (false, s)
      else
        let code := ((c0 &&& 0x0F) <<< 12) ||| ((c1 &&& 0x3F) <<< 6) ||| (c2 &&& 0x3F)
        if code < 0x800 then (false, s)
        else if 0xD800 ≤ code ∧ code ≤ 0xDFFF then (false, s)
        else (true, ⟨p + 3, code⟩)

/-- Mirrors `decode_4byte_UTF8`. -/
def decode_4byte_UTF8 (buf : List Nat) (s : DecPtr) : Bool × DecPtr :=
  let p := s.pos
  if buf.length ≤ p then (false, s)
  else
    let c0 := buf.getD p 0
    if buf.length - p < 4 then (false, s)
    else
      let c1 := buf.getD (p + 1) 0
      let c2 := buf.getD (p + 2) 0
      let c3 := buf.getD (p + 3) 0
      if ¬ (c1 &&& 0xC0 = 0x80) ∨ ¬ (c2 &&& 0xC0 = 0x80) ∨ ¬ (c3 &&& 0xC0 = 0x80) then
        (false, s)
      else
        let code := ((c0 &&& 0x07) <<< 18) ||| ((c1 &&& 0x3F) <<< 12)
                      ||| ((c2 &&& 0x3F) <<< 6) ||| (c3 &&& 0x3F)
        if code < 0x10000 then (false, s)
        else if 0x10FFFF < code then (false, s)
        else (true, ⟨p + 4, code⟩)

/-- Mirrors `decode_next_UTF8`: dispatch on the first byte. -/
def decode_next_UTF8 (buf : List Nat) (s : DecPtr) : Bool × DecPtr :=
  if buf.length ≤ s.pos then (false, s)
  else
    let c0 := buf.getD s.pos 0
    if c0 < 0x80 then (true, ⟨s.pos + 1, c0⟩)
    else if c0 &&& 0xE0 = 0xC0 then decode_2byte_UTF8 buf s
    else if c0 &&& 0xF0 = 0xE0 then decode_3byte_UTF8 buf s
    else if c0 &&& 0xF8 = 0xF0 then decode_4byte_UTF8 buf s
    else (false, s)

/-! ## The JSON value tree (src/internal.h, src/json.c)

`struct json` is a tagged union; an object’s members are a linked list of
`struct json_member` (key bytes and owned value), an array holds a growable
buffer of owned values.  Keys and string payloads are NUL-terminated C
strings, modelled as their byte lists (no interior NUL); `strcmp` equality
on such strings is byte-list equality.  The `number` variant of the C
struct holds a `double` that the printer renders with `fprintf("%f", ..)`;
floating-point formatting is outside the embedding, so the variant carries
the rendered byte text (the only use the printing claims make of it). -/

inductive Json where
  | object (members : List (List Nat × Json))
  | array (items : List Json)
  | str (bytes : List Nat)
  | number (text : List Nat)
  | boolean (b : Bool)
  | null

/-- Member-list update of `json_object_add` (the `while (*link)` scan): an
entry with a `strcmp`-equal key has its value replaced in place (its key and
list position kept, the old value freed); otherwise a fresh member is
appended at the tail link. -/
def object_add_members : List (List Nat × Json) → List Nat → Json →
    List (List Nat × Json)
  | [], key, value => [(key, value)]
  | (k, v) :: rest, key, value =>
    if k = key then (k, value) :: rest
    else (k, v) :: object_add_members rest key value

/-- Mirrors `json_object_add`: `none` models the `false` return on a
non-object target (allocation failure is not modelled). -/
def json_object_add (json : Json) (key : List Nat) (value : Json) : Option Json :=
  match json with
  | .object members => some (.object (object_add_members members key value))
  | _ => none

/-- Modelled from the spec: `json_array_remove` is declared in
`include/json.h` (line 109) but its implementation is not under `src/`.
Spec 4.4: "if in bounds, destroy the element, shift all later elements down
by one position (preserving relative order), shrink the logical length; if
out of bounds, no effect, failure."  `none` models the `false` return (no
effect); `some` returns the array with the element at `index` removed. -/
def json_array_remove (json : Json) (index : Nat) : Option Json :=
  match json with
  | .array items =>
    if index < items.length then
      some (.array (items.take index ++ items.drop (index + 1)))
    else
      none
  | _ => none

/-- Mirrors `json_parse` (src/json.c): the generated parser `yyparse` and
its lexer are not part of the sources; `yyresult` models their outcome
(`some root` when `yyparse()` returns 0 with `json_root` set, `none` for a
nonzero return).  The status written back is taken verbatim from
src/json.c lines 40-47: `JSON_SUCCESS` on success and
`JSON_UNEXPECTED_CHARACTER` on every failure. -/
def json_parse (yyresult : Option Json) : Option Json × json_status :=
  match yyresult with
  | some root => (some root, .JSON_SUCCESS)
  | none => (none, .JSON_UNEXPECTED_CHARACTER)

/-! ## Printing (src/printing.c)

The output stream is modelled as the list of bytes written, in emission
order; every `fprintf`/`fputs`/`fputc` of the C code contributes its bytes
by concatenation.  All literal texts written by the printer are ASCII. -/

/-- One hex digit of `%X` (upper case). -/
def hex_digit (d : Nat) : Nat :=
  if d < 10 then 0x30 + d else 0x41 + (d - 10)

/-- The four digits of `fprintf(out, "%04X", (uint16_t) n)`. -/
def hex4 (n : Nat) : List Nat :=
  [hex_digit (n % 0x10000 / 4096), hex_digit (n % 0x10000 / 256 % 16),
   hex_digit (n % 0x10000 / 16 % 16), hex_digit (n % 0x10000 % 16)]

/-- Mirrors `json_print_escaped`: `\uXXXX`, splitting scalars above the
Basic Multilingual Plane into a surrogate pair. -/
def json_print_escaped (code : Nat) : List Nat :=
  if code ≤ 0xFFFF then
    [0x5C, 0x75] ++ hex4 code
  else
    [0x5C, 0x75] ++ hex4 (0xD800 + ((code - 0x10000) >>> 10)) ++
    [0x5C, 0x75] ++ hex4 (0xDC00 + ((code - 0x10000) &&& 0x3FF))

/-- Mirrors `json_print_question_mark`: the replacement marker, either the
ASCII escape `�` or the UTF-8 bytes of U+FFFD. -/
def json_print_question_mark (ascii : Bool) : List Nat :=
  if ascii then [0x5C, 0x75, 0x46, 0x46, 0x46, 0x44] else [0xEF, 0xBF, 0xBD]

/-- `decode_next_UTF8` applied to the front of a byte list: the decoded
scalar and the number of bytes consumed (the C caller passes a cursor into
the string and its end; the list is the remaining region). -/
def decode_next_bytes (bs : List Nat) : Option (Nat × Nat) :=
  let r := decode_next_UTF8 bs ⟨0, 0⟩
  if r.1 then some (r.2.out, r.2.pos) else none

/-- The recovery loop of `json_print_string` after a decode failure: after
skipping the failing byte, up to three further continuation-looking bytes
(top two bits `10`) are skipped.  Returns the remaining input. -/
def skip_continuation (l : List Nat) (skips : Nat) : List Nat :=
  match l with
  | [] => []
  | b :: rest =>
    if skips < 3 ∧ b &&& 0xC0 = 0x80 then skip_continuation rest (skips + 1)
    else b :: rest

/-! The next lemmas bound the input consumed by one iteration of the
string-printing scan; its recursion terminates by them. -/

theorem skip_continuation_length : ∀ (l : List Nat) (s : Nat),
    (skip_continuation l s).length ≤ l.length := by
  intro l
  induction l with
  | nil => intro s; simp [skip_continuation]
  | cons b rest ih =>
    intro s
    simp only [skip_continuation]
    split
    · have := ih (s + 1)
      simp only [List.length_cons]
      omega
    · simp

theorem decode_2byte_success_pos {buf : List Nat} {s : DecPtr}
    (h : (decode_2byte_UTF8 buf s).1 = true) :
    (decode_2byte_UTF8 buf s).2.pos = s.pos + 2 ∧ s.pos + 2 ≤ buf.length := by
  unfold decode_2byte_UTF8 at h ⊢
  dsimp only at h ⊢
  split_ifs at h ⊢ <;> simp_all <;> omega

theorem decode_3byte_success_pos {buf : List Nat} {s : DecPtr}
    (h : (decode_3byte_UTF8 buf s).1 = true) :
    (decode_3byte_UTF8 buf s).2.pos = s.pos + 3 ∧ s.pos + 3 ≤ buf.length := by
  unfold decode_3byte_UTF8 at h ⊢
  dsimp only at h ⊢
  split_ifs at h ⊢ <;> simp_all <;> omega

theorem decode_4byte_success_pos {buf : List Nat} {s : DecPtr}
    (h : (decode_4byte_UTF8 buf s).1 = true) :
    (decode_4byte_UTF8 buf s).2.pos = s.pos + 4 ∧ s.pos + 4 ≤ buf.length := by
  unfold decode_4byte_UTF8 at h ⊢
  dsimp only at h ⊢
  split_ifs at h ⊢ <;> simp_all <;> omega

theorem decode_next_success_pos {buf : List Nat} {s : DecPtr}
    (h : (decode_next_UTF8 buf s).1 = true) :
    s.pos < (decode_next_UTF8 buf s).2.pos ∧
      (decode_next_UTF8 buf s).2.pos ≤ buf.length ∧
      (decode_next_UTF8 buf s).2.pos ≤ s.pos + 4 := by
  unfold decode_next_UTF8 at h ⊢
  dsimp only at h ⊢
  split_ifs at h ⊢ <;>
    first
      | (have h2 := decode_2byte_success_pos h
         omega)
      | (have h3 := decode_3byte_success_pos h
         omega)
      | (have h4 := decode_4byte_success_pos h
         omega)
      | (simp_all
         omega)
      | simp_all

theorem decode_next_bytes_pos {bs : List Nat} {code n : Nat}
    (h : decode_next_bytes bs = some (code, n)) : 1 ≤ n ∧ n ≤ bs.length := by
  unfold decode_next_bytes at h
  dsimp only at h
  split at h
  next htrue =>
    simp only [Option.some.injEq, Prod.mk.injEq] at h
    have := decode_next_success_pos htrue
    omega
  next => exact absurd h (by simp)

/-- The scan loop of `json_print_string` (the `for (const uint8_t *p = text;
*p; )` loop): decode one scalar and render it, or emit a replacement marker
and resynchronize.  The loop stops at the terminating NUL; the byte list is
the NUL-free string content. -/
def json_print_string_loop (bs : List Nat) (ascii : Bool) : List Nat :=
  match bs with
  | [] => []
  | b :: rest =>
    match hd : decode_next_bytes (b :: rest) with
    | none =>
      json_print_question_mark ascii ++
        json_print_string_loop (skip_continuation rest 0) ascii
    | some (code, n) =>
      (if code = 0x22 then [0x5C, 0x22]
       else if code = 0x5C then [0x5C, 0x5C]
       else if code = 0x08 then [0x5C, 0x62]
       else if code = 0x0C then [0x5C, 0x66]
       else if code = 0x0A then [0x5C, 0x6E]
       else if code = 0x0D then [0x5C, 0x72]
       else if code = 0x09 then [0x5C, 0x74]
       else if code < 0x20 then json_print_escaped code
       else if ascii = true ∧ 0x80 ≤ code then json_print_escaped code
       else (b :: rest).take n) ++
      json_print_string_loop ((b :: rest).drop n) ascii
termination_by bs.length
decreasing_by
  · have := skip_continuation_length rest 0
    simp only [List.length_cons]
    omega
  · have := decode_next_bytes_pos hd
    simp only [List.length_drop, List.length_cons]
    omega

/-- Mirrors `json_print_string`: quoted, escaped string rendering. -/
def json_print_string (text : List Nat) (ascii : Bool) : List Nat :=
  [0x22] ++ json_print_string_loop text ascii ++ [0x22]

/-- Mirrors `object_contains_object_or_array` (the multi-line test of the
layout heuristic): scans only the immediate member values. -/
def object_contains_object_or_array : List (List Nat × Json) → Bool
  | [] => false
  | (_, v) :: rest =>
    match v with
    | .object _ => true
    | .array _ => true
    | _ => object_contains_object_or_array rest

/-- Mirrors `array_contains_object_or_array`. -/
def array_contains_object_or_array : List Json → Bool
  | [] => false
  | v :: rest =>
    match v with
    | .object _ => true
    | .array _ => true
    | _ => array_contains_object_or_array rest

/-- Mirrors `print_indent`: `indent` spaces. -/
def print_indent (indent : Nat) : List Nat := List.replicate indent 0x20

mutual

/-- Mirrors `json_print_indent`: dispatch on the value type.  The `number`
variant carries its `%f` rendering (see `Json`); `true`, `false` and `null`
are their ASCII bytes. -/
def json_print_indent : Json → Nat → List Nat
  | .object members, indent => print_object members indent
  | .array items, indent => print_array items indent
  | .str s, _ => json_print_string s false
  | .number t, _ => t
  | .boolean b, _ =>
    if b then [0x74, 0x72, 0x75, 0x65] else [0x66, 0x61, 0x6C, 0x73, 0x65]
  | .null, _ => [0x6E, 0x75, 0x6C, 0x6C]

/-- Mirrors `print_object`. -/
def print_object (members : List (List Nat × Json)) (indent : Nat) : List Nat :=
  (if object_contains_object_or_array members then [0x7B, 0x0A] else [0x7B]) ++
  print_object_members members indent (object_contains_object_or_array members) ++
  (if object_contains_object_or_array members then print_indent indent else []) ++
  [0x7D]

/-- The member loop of `print_object` (`for (; member; member =
member->next)`); `multi` is its `multi` flag. -/
def print_object_members : List (List Nat × Json) → Nat → Bool → List Nat
  | [], _, _ => []
  | (k, v) :: rest, indent, multi =>
    (if multi then print_indent (indent + 2) else []) ++
    json_print_string k false ++ [0x3A, 0x20] ++
    json_print_indent v (indent + 2) ++
    (if rest.isEmpty then [] else [0x2C, 0x20]) ++
    (if multi then [0x0A] else []) ++
    print_object_members rest indent multi

/-- Mirrors `print_array`. -/
def print_array (items : List Json) (indent : Nat) : List Nat :=
  (if array_contains_object_or_array items then [0x5B, 0x0A] else [0x5B]) ++
  print_array_items items indent (array_contains_object_or_array items) ++
  (if array_contains_object_or_array items then print_indent indent else []) ++
  [0x5D]

/-- The element loop of `print_array` (the comma is emitted when `i <
array->count - 1`, i.e. when further elements follow). -/
def print_array_items : List Json → Nat → Bool → List Nat
  | [], _, _ => []
  | v :: rest, indent, multi =>
    (if multi then print_indent (indent + 2) else []) ++
    json_print_indent v (indent + 2) ++
    (if rest.isEmpty then [] else [0x2C, 0x20]) ++
    (if multi then [0x0A] else []) ++
    print_array_items rest indent multi

end

/-- Mirrors `json_print`: the rendering plus a single trailing newline. -/
def json_print (json : Json) : List Nat := json_print_indent json 0 ++ [0x0A]

/-! Two claim-side notions used to state the layout heuristic: the
aggregate test on one value, and marking a list’s last element. -/

/-- A value is an aggregate when it is an Object or an Array (the property
the layout heuristic tests on immediate children). -/
def value_is_aggregate : Json → Bool
  | .object _ => true
  | .array _ => true
  | _ => false

/-- Marks the last element of a list (the printer emits the separator after
every member except the last). -/
def with_last {α : Type} : List α → List (α × Bool)
  | [] => []
  | [a] => [(a, true)]
  | a :: b :: rest => (a, false) :: with_last (b :: rest)

/-! ## Part 2: theorems.

Arithmetic facts about the bit operations used by the codec. -/

theorem and31 (x : Nat) : x &&& 31 = x % 32 := by
  have h := Nat.and_pow_two_sub_one_eq_mod x 5
  norm_num at h
  exact h

theorem and63 (x : Nat) : x &&& 63 = x % 64 := by
  have h := Nat.and_pow_two_sub_one_eq_mod x 6
  norm_num at h
  exact h

theorem and15 (x : Nat) : x &&& 15 = x % 16 := by
  have h := Nat.and_pow_two_sub_one_eq_mod x 4
  norm_num at h
  exact h

theorem and7 (x : Nat) : x &&& 7 = x % 8 := by
  have h := Nat.and_pow_two_sub_one_eq_mod x 3
  norm_num at h
  exact h

theorem and1023 (x : Nat) : x &&& 1023 = x % 1024 := by
  have h := Nat.and_pow_two_sub_one_eq_mod x 10
  norm_num at h
  exact h

theorem shr6 (x : Nat) : x >>> 6 = x / 64 := by
  have h := Nat.shiftRight_eq_div_pow x 6
  norm_num at h
  exact h

theorem shr10 (x : Nat) : x >>> 10 = x / 1024 := by
  have h := Nat.shiftRight_eq_div_pow x 10
  norm_num at h
  exact h

theorem shr12 (x : Nat) : x >>> 12 = x / 4096 := by
  have h := Nat.shiftRight_eq_div_pow x 12
  norm_num at h
  exact h

theorem shr18 (x : Nat) : x >>> 18 = x / 262144 := by
  have h := Nat.shiftRight_eq_div_pow x 18
  norm_num at h
  exact h

theorem shl4 (x : Nat) : x <<< 4 = x * 16 := by
  rw [Nat.shiftLeft_eq]

theorem shl6 (x : Nat) : x <<< 6 = x * 64 := by
  rw [Nat.shiftLeft_eq]

theorem shl10 (x : Nat) : x <<< 10 = x * 1024 := by
  rw [Nat.shiftLeft_eq]

theorem shl12 (x : Nat) : x <<< 12 = x * 4096 := by
  rw [Nat.shiftLeft_eq]

theorem shl18 (x : Nat) : x <<< 18 = x * 262144 := by
  rw [Nat.shiftLeft_eq]

theorem lor_eq_add_64 {x y : Nat} (h : y < 64) : (x * 64) ||| y = x * 64 + y := by
  have h2 : y < 2 ^ 6 := by norm_num; omega
  have := (Nat.mul_add_lt_is_or h2 x).symm
  calc x * 64 ||| y = 2 ^ 6 * x ||| y := by ring_nf
    _ = 2 ^ 6 * x + y := (Nat.mul_add_lt_is_or h2 x).symm
    _ = x * 64 + y := by ring

theorem lor_eq_add_4096 {x y : Nat} (h : y < 4096) : (x * 4096) ||| y = x * 4096 + y := by
  have h2 : y < 2 ^ 12 := by norm_num; omega
  calc x * 4096 ||| y = 2 ^ 12 * x ||| y := by ring_nf
    _ = 2 ^ 12 * x + y := (Nat.mul_add_lt_is_or h2 x).symm
    _ = x * 4096 + y := by ring

theorem lor_eq_add_262144 {x y : Nat} (h : y < 262144) :
    (x * 262144) ||| y = x * 262144 + y := by
  have h2 : y < 2 ^ 18 := by norm_num; omega
  calc x * 262144 ||| y = 2 ^ 18 * x ||| y := by ring_nf
    _ = 2 ^ 18 * x + y := (Nat.mul_add_lt_is_or h2 x).symm
    _ = x * 262144 + y := by ring

theorem lor_eq_add_16 {x y : Nat} (h : y < 16) : (x * 16) ||| y = x * 16 + y := by
  have h2 : y < 2 ^ 4 := by norm_num; omega
  calc x * 16 ||| y = 2 ^ 4 * x ||| y := by ring_nf
    _ = 2 ^ 4 * x + y := (Nat.mul_add_lt_is_or h2 x).symm
    _ = x * 16 + y := by ring

theorem and_mask_192 : ∀ x, x < 32 → (192 + x) &&& 224 = 192 ∧ (192 + x) &&& 31 = x := by
  decide

theorem and_mask_128 : ∀ y, y < 64 → (128 + y) &&& 192 = 128 ∧ (128 + y) &&& 63 = y := by
  decide

theorem and_mask_224 : ∀ x, x < 16 →
    (224 + x) &&& 224 = 224 ∧ (224 + x) &&& 240 = 224 ∧ (224 + x) &&& 15 = x := by
  decide

theorem and_mask_240 : ∀ w, w < 8 →
    (240 + w) &&& 224 = 224 ∧ (240 + w) &&& 240 = 240 ∧ (240 + w) &&& 248 = 240 ∧
      (240 + w) &&& 7 = w := by
  decide

theorem or_192 {x : Nat} (h : x < 64) : 192 ||| x = 192 + x := by
  have h2 : x < 2 ^ 6 := by norm_num; omega
  calc 192 ||| x = 2 ^ 6 * 3 ||| x := by norm_num
    _ = 2 ^ 6 * 3 + x := (Nat.mul_add_lt_is_or h2 3).symm
    _ = 192 + x := by norm_num

theorem or_128 {x : Nat} (h : x < 128) : 128 ||| x = 128 + x := by
  have h2 : x < 2 ^ 7 := by norm_num; omega
  calc 128 ||| x = 2 ^ 7 * 1 ||| x := by norm_num
    _ = 2 ^ 7 * 1 + x := (Nat.mul_add_lt_is_or h2 1).symm
    _ = 128 + x := by norm_num

theorem or_224 {x : Nat} (h : x < 32) : 224 ||| x = 224 + x := by
  have h2 : x < 2 ^ 5 := by norm_num; omega
  calc 224 ||| x = 2 ^ 5 * 7 ||| x := by norm_num
    _ = 2 ^ 5 * 7 + x := (Nat.mul_add_lt_is_or h2 7).symm
    _ = 224 + x := by norm_num

theorem or_240 {x : Nat} (h : x < 16) : 240 ||| x = 240 + x := by
  have h2 : x < 2 ^ 4 := by norm_num; omega
  calc 240 ||| x = 2 ^ 4 * 15 ||| x := by norm_num
    _ = 2 ^ 4 * 15 + x := (Nat.mul_add_lt_is_or h2 15).symm
    _ = 240 + x := by norm_num

/-- A byte whose AND with a mask having bit 7 set equals a value with bit 7
set is itself at least 0x80. -/
theorem byte_high_of_and {c m v : Nat} (h : c &&& m = v) (hv : v.testBit 7 = true) :
    128 ≤ c := by
  have h7 : (c &&& m).testBit 7 = true := by rw [h]; exact hv
  rw [Nat.testBit_and, Bool.and_eq_true] at h7
  have hc : c.testBit 7 = true := h7.1
  have := Nat.testBit_implies_ge hc
  simpa using this

theorem and_of_and {c m1 m2 v : Nat} (h : c &&& m1 = v) (hsub : m1 &&& m2 = m2) :
    c &&& m2 = v &&& m2 := by
  calc c &&& m2 = c &&& (m1 &&& m2) := by rw [hsub]
    _ = (c &&& m1) &&& m2 := (Nat.and_assoc c m1 m2).symm
    _ = v &&& m2 := by rw [h]

/-! ## Arithmetic characterizations of the encoder -/

theorem push_bytes_1 {c : Nat} (h : c ≤ 0x7F) : ustring_push_bytes c = some [c] := by
  simp [ustring_push_bytes, h]

theorem push_bytes_2 {c : Nat} (h1 : 0x80 ≤ c) (h2 : c ≤ 0x7FF) :
    ustring_push_bytes c = some [192 + c / 64, 128 + c % 64] := by
  have hq : c / 64 < 32 := by omega
  have hr : c % 64 < 64 := by omega
  simp only [ustring_push_bytes, shr6, and31, and63]
  rw [if_neg (by omega), if_pos h2]
  rw [Nat.mod_eq_of_lt hq, or_192 (by omega), or_128 (by omega)]

theorem push_bytes_3 {c : Nat} (h1 : 0x800 ≤ c) (h2 : c ≤ 0xFFFF) :
    ustring_push_bytes c =
      some [224 + c / 4096, 128 + c / 64 % 64, 128 + c % 64] := by
  have hq : c / 4096 < 16 := by omega
  simp only [ustring_push_bytes, shr6, shr12, and15, and63]
  rw [if_neg (by omega), if_neg (by omega), if_pos h2]
  rw [Nat.mod_eq_of_lt hq, or_224 (by omega), or_128 (by omega), or_128 (by omega)]

theorem push_bytes_4 {c : Nat} (h1 : 0x10000 ≤ c) (h2 : c ≤ 0x10FFFF) :
    ustring_push_bytes c =
      some [240 + c / 262144, 128 + c / 4096 % 64, 128 + c / 64 % 64, 128 + c % 64] := by
  have hq : c / 262144 < 8 := by omega
  simp only [ustring_push_bytes, shr6, shr12, shr18, and7, and63]
  rw [if_neg (by omega), if_neg (by omega), if_neg (by omega), if_pos h2]
  rw [Nat.mod_eq_of_lt hq, or_240 (by omega), or_128 (by omega), or_128 (by omega),
      or_128 (by omega)]

/-! ## Characterizations of the decoder -/

theorem getD_suffix (pre l : List Nat) (i : Nat) :
    (pre ++ l).getD (pre.length + i) 0 = l.getD i 0 := by
  rw [List.getD_append_right pre l 0 (pre.length + i) (by omega)]
  congr 1
  omega

theorem decode_2byte_fail_state {buf : List Nat} {s : DecPtr}
    (h : (decode_2byte_UTF8 buf s).1 = false) : (decode_2byte_UTF8 buf s).2 = s := by
  unfold decode_2byte_UTF8 at h ⊢
  dsimp only at h ⊢
  split_ifs at h ⊢ <;> simp_all

theorem decode_3byte_fail_state {buf : List Nat} {s : DecPtr}
    (h : (decode_3byte_UTF8 buf s).1 = false) : (decode_3byte_UTF8 buf s).2 = s := by
  unfold decode_3byte_UTF8 at h ⊢
  dsimp only at h ⊢
  split_ifs at h ⊢ <;> simp_all

theorem decode_4byte_fail_state {buf : List Nat} {s : DecPtr}
    (h : (decode_4byte_UTF8 buf s).1 = false) : (decode_4byte_UTF8 buf s).2 = s := by
  unfold decode_4byte_UTF8 at h ⊢
  dsimp only at h ⊢
  split_ifs at h ⊢ <;> simp_all

theorem decode_next_fail_state {buf : List Nat} {s : DecPtr}
    (h : (decode_next_UTF8 buf s).1 = false) : (decode_next_UTF8 buf s).2 = s := by
  unfold decode_next_UTF8 at h ⊢
  dsimp only at h ⊢
  split_ifs at h ⊢ <;>
    first
      | rfl
      | exact decode_2byte_fail_state h
      | exact decode_3byte_fail_state h
      | exact decode_4byte_fail_state h

/-- A well-formed one-byte (ASCII) sequence decodes to its byte. -/
theorem decode1_shape (pre rest : List Nat) (b o : Nat) (hb : b < 128) :
    decode_next_UTF8 (pre ++ b :: rest) ⟨pre.length, o⟩ = (true, ⟨pre.length + 1, b⟩) := by
  have hb0 : (pre ++ b :: rest).getD pre.length 0 = b := by
    have := getD_suffix pre (b :: rest) 0
    simpa using this
  unfold decode_next_UTF8
  simp only [hb0, List.length_append, List.length_cons]
  rw [if_neg (by omega), if_pos hb]

/-- A structurally well-formed two-byte sequence (correct lead/continuation
bit patterns) decodes to its represented value unless that value is overlong. -/
theorem decode2_shape (pre rest : List Nat) (x y o : Nat) (hx : x < 32) (hy : y < 64) :
    decode_next_UTF8 (pre ++ (192 + x) :: (128 + y) :: rest) ⟨pre.length, o⟩ =
      if x * 64 + y < 128 then (false, ⟨pre.length, o⟩)
      else (true, ⟨pre.length + 2, x * 64 + y⟩) := by
  have hb0 : (pre ++ (192 + x) :: (128 + y) :: rest).getD pre.length 0 = 192 + x := by
    have := getD_suffix pre ((192 + x) :: (128 + y) :: rest) 0
    simpa using this
  have hb1 : (pre ++ (192 + x) :: (128 + y) :: rest).getD (pre.length + 1) 0 = 128 + y := by
    have := getD_suffix pre ((192 + x) :: (128 + y) :: rest) 1
    simpa using this
  unfold decode_next_UTF8 decode_2byte_UTF8
  simp only [hb0, hb1, List.length_append, List.length_cons]
  rw [if_neg (by omega), if_neg (by omega), if_pos (and_mask_192 x hx).1,
      if_neg (by omega), if_neg (by omega), if_neg (by simp [(and_mask_128 y hy).1])]
  rw [(and_mask_192 x hx).2, (and_mask_128 y hy).2, shl6, lor_eq_add_64 hy]

/-- A structurally well-formed three-byte sequence decodes to its represented
value unless that value is overlong or a UTF-16 surrogate. -/
theorem decode3_shape (pre rest : List Nat) (x y z o : Nat)
    (hx : x < 16) (hy : y < 64) (hz : z < 64) :
    decode_next_UTF8 (pre ++ (224 + x) :: (128 + y) :: (128 + z) :: rest)
        ⟨pre.length, o⟩ =
      if x * 4096 + y * 64 + z < 2048 then (false, ⟨pre.length, o⟩)
      else if 55296 ≤ x * 4096 + y * 64 + z ∧ x * 4096 + y * 64 + z ≤ 57343 then
        (false, ⟨pre.length, o⟩)
      else (true, ⟨pre.length + 3, x * 4096 + y * 64 + z⟩) := by
  have hb0 : (pre ++ (224 + x) :: (128 + y) :: (128 + z) :: rest).getD pre.length 0
      = 224 + x := by
    have := getD_suffix pre ((224 + x) :: (128 + y) :: (128 + z) :: rest) 0
    simpa using this
  have hb1 : (pre ++ (224 + x) :: (128 + y) :: (128 + z) :: rest).getD (pre.length + 1) 0
      = 128 + y := by
    have := getD_suffix pre ((224 + x) :: (128 + y) :: (128 + z) :: rest) 1
    simpa using this
  have hb2 : (pre ++ (224 + x) :: (128 + y) :: (128 + z) :: rest).getD (pre.length + 2) 0
      = 128 + z := by
    have := getD_suffix pre ((224 + x) :: (128 + y) :: (128 + z) :: rest) 2
    simpa using this
  have hcode : (((224 + x) &&& 15) <<< 12) ||| (((128 + y) &&& 63) <<< 6)
      ||| ((128 + z) &&& 63) = x * 4096 + y * 64 + z := by
    rw [(and_mask_224 x hx).2.2, (and_mask_128 y hy).2, (and_mask_128 z hz).2,
        shl6, shl12, lor_eq_add_4096 (by omega)]
    have he : x * 4096 + y * 64 = (x * 64 + y) * 64 := by ring
    rw [he, lor_eq_add_64 hz]
  unfold decode_next_UTF8 decode_3byte_UTF8
  simp only [hb0, hb1, hb2, List.length_append, List.length_cons]
  rw [if_neg (by omega), if_neg (by omega),
      if_neg (by rw [(and_mask_224 x hx).1]; omega),
      if_pos (and_mask_224 x hx).2.1,
      if_neg (by omega), if_neg (by omega),
      if_neg (by simp [(and_mask_128 y hy).1, (and_mask_128 z hz).1]),
      hcode]

/-- A structurally well-formed four-byte sequence decodes to its represented
value unless that value is overlong or beyond U+10FFFF. -/
theorem decode4_shape (pre rest : List Nat) (w x y z o : Nat)
    (hw : w < 8) (hx : x < 64) (hy : y < 64) (hz : z < 64) :
    decode_next_UTF8 (pre ++ (240 + w) :: (128 + x) :: (128 + y) :: (128 + z) :: rest)
        ⟨pre.length, o⟩ =
      if w * 262144 + x * 4096 + y * 64 + z < 65536 then (false, ⟨pre.length, o⟩)
      else if 1114111 < w * 262144 + x * 4096 + y * 64 + z then (false, ⟨pre.length, o⟩)
      else (true, ⟨pre.length + 4, w * 262144 + x * 4096 + y * 64 + z⟩) := by
  have hb0 : (pre ++ (240 + w) :: (128 + x) :: (128 + y) :: (128 + z) :: rest).getD
      pre.length 0 = 240 + w := by
    have := getD_suffix pre ((240 + w) :: (128 + x) :: (128 + y) :: (128 + z) :: rest) 0
    simpa using this
  have hb1 : (pre ++ (240 + w) :: (128 + x) :: (128 + y) :: (128 + z) :: rest).getD
      (pre.length + 1) 0 = 128 + x := by
    have := getD_suffix pre ((240 + w) :: (128 + x) :: (128 + y) :: (128 + z) :: rest) 1
    simpa using this
  have hb2 : (pre ++ (240 + w) :: (128 + x) :: (128 + y) :: (128 + z) :: rest).getD
      (pre.length + 2) 0 = 128 + y := by
    have := getD_suffix pre ((240 + w) :: (128 + x) :: (128 + y) :: (128 + z) :: rest) 2
    simpa using this
  have hb3 : (pre ++ (240 + w) :: (128 + x) :: (128 + y) :: (128 + z) :: rest).getD
      (pre.length + 3) 0 = 128 + z := by
    have := getD_suffix pre ((240 + w) :: (128 + x) :: (128 + y) :: (128 + z) :: rest) 3
    simpa using this
  have hcode : (((240 + w) &&& 7) <<< 18) ||| (((128 + x) &&& 63) <<< 12)
      ||| (((128 + y) &&& 63) <<< 6) ||| ((128 + z) &&& 63)
      = w * 262144 + x * 4096 + y * 64 + z := by
    rw [(and_mask_240 w hw).2.2.2, (and_mask_128 x hx).2, (and_mask_128 y hy).2,
        (and_mask_128 z hz).2, shl6, shl12, shl18,
        lor_eq_add_262144 (by omega)]
    have he1 : w * 262144 + x * 4096 = (w * 64 + x) * 4096 := by ring
    rw [he1, lor_eq_add_4096 (by omega)]
    have he2 : (w * 64 + x) * 4096 + y * 64 = ((w * 64 + x) * 64 + y) * 64 := by ring
    rw [he2, lor_eq_add_64 hz]
    try ring
  unfold decode_next_UTF8 decode_4byte_UTF8
  simp only [hb0, hb1, hb2, hb3, List.length_append, List.length_cons]
  rw [if_neg (by omega), if_neg (by omega),
      if_neg (by rw [(and_mask_240 w hw).1]; omega),
      if_neg (by rw [(and_mask_240 w hw).2.1]; omega),
      if_pos (and_mask_240 w hw).2.2.1,
      if_neg (by omega), if_neg (by omega),
      if_neg (by simp [(and_mask_128 x hx).1, (and_mask_128 y hy).1, (and_mask_128 z hz).1]),
      hcode]

theorem decode_next_truncated_2 {buf : List Nat} {s : DecPtr}
    (h0 : s.pos < buf.length) (hm : buf.getD s.pos 0 &&& 224 = 192)
    (hl : buf.length < s.pos + 2) : decode_next_UTF8 buf s = (false, s) := by
  have hge : 128 ≤ buf.getD s.pos 0 := byte_high_of_and hm (by decide)
  unfold decode_next_UTF8 decode_2byte_UTF8
  rw [if_neg (by omega), if_neg (by omega), if_pos hm, if_neg (by omega),
      if_pos (by omega)]

theorem decode_next_truncated_3 {buf : List Nat} {s : DecPtr}
    (h0 : s.pos < buf.length) (hm : buf.getD s.pos 0 &&& 240 = 224)
    (hl : buf.length < s.pos + 3) : decode_next_UTF8 buf s = (false, s) := by
  have hge : 128 ≤ buf.getD s.pos 0 := byte_high_of_and hm (by decide)
  have hm224 : buf.getD s.pos 0 &&& 224 = 224 := by
    have := and_of_and hm (by decide : (240 : Nat) &&& 224 = 224)
    simpa using this
  unfold decode_next_UTF8 decode_3byte_UTF8
  rw [if_neg (by omega), if_neg (by omega), if_neg (by omega), if_pos hm,
      if_neg (by omega), if_pos (by omega)]

theorem decode_next_truncated_4 {buf : List Nat} {s : DecPtr}
    (h0 : s.pos < buf.length) (hm : buf.getD s.pos 0 &&& 248 = 240)
    (hl : buf.length < s.pos + 4) : decode_next_UTF8 buf s = (false, s) := by
  have hge : 128 ≤ buf.getD s.pos 0 := byte_high_of_and hm (by decide)
  have hm224 : buf.getD s.pos 0 &&& 224 = 224 := by
    have := and_of_and hm (by decide : (248 : Nat) &&& 224 = 224)
    simpa using this
  have hm240 : buf.getD s.pos 0 &&& 240 = 240 := by
    have := and_of_and hm (by decide : (248 : Nat) &&& 240 = 240)
    simpa using this
  unfold decode_next_UTF8 decode_4byte_UTF8
  rw [if_neg (by omega), if_neg (by omega), if_neg (by omega), if_neg (by omega),
      if_pos hm, if_neg (by omega), if_pos (by omega)]

theorem decode_next_badcont_2 {buf : List Nat} {s : DecPtr}
    (h0 : s.pos < buf.length) (hm : buf.getD s.pos 0 &&& 224 = 192)
    (hl : s.pos + 2 ≤ buf.length)
    (hc : ¬ (buf.getD (s.pos + 1) 0 &&& 192 = 128)) :
    decode_next_UTF8 buf s = (false, s) := by
  have hge : 128 ≤ buf.getD s.pos 0 := byte_high_of_and hm (by decide)
  unfold decode_next_UTF8 decode_2byte_UTF8
  rw [if_neg (by omega), if_neg (by omega), if_pos hm, if_neg (by omega),
      if_neg (by omega), if_pos hc]

theorem decode_next_badcont_3 {buf : List Nat} {s : DecPtr}
    (h0 : s.pos < buf.length) (hm : buf.getD s.pos 0 &&& 240 = 224)
    (hl : s.pos + 3 ≤ buf.length)
    (hc : ¬ (buf.getD (s.pos + 1) 0 &&& 192 = 128) ∨
          ¬ (buf.getD (s.pos + 2) 0 &&& 192 = 128)) :
    decode_next_UTF8 buf s = (false, s) := by
  have hge : 128 ≤ buf.getD s.pos 0 := byte_high_of_and hm (by decide)
  have hm224 : buf.getD s.pos 0 &&& 224 = 224 := by
    have := and_of_and hm (by decide : (240 : Nat) &&& 224 = 224)
    simpa using this
  unfold decode_next_UTF8 decode_3byte_UTF8
  rw [if_neg (by omega), if_neg (by omega), if_neg (by omega), if_pos hm,
      if_neg (by omega), if_neg (by omega), if_pos hc]

theorem decode_next_badcont_4 {buf : List Nat} {s : DecPtr}
    (h0 : s.pos < buf.length) (hm : buf.getD s.pos 0 &&& 248 = 240)
    (hl : s.pos + 4 ≤ buf.length)
    (hc : ¬ (buf.getD (s.pos + 1) 0 &&& 192 = 128) ∨
          ¬ (buf.getD (s.pos + 2) 0 &&& 192 = 128) ∨
          ¬ (buf.getD (s.pos + 3) 0 &&& 192 = 128)) :
    decode_next_UTF8 buf s = (false, s) := by
  have hge : 128 ≤ buf.getD s.pos 0 := byte_high_of_and hm (by decide)
  have hm224 : buf.getD s.pos 0 &&& 224 = 224 := by
    have := and_of_and hm (by decide : (248 : Nat) &&& 224 = 224)
    simpa using this
  have hm240 : buf.getD s.pos 0 &&& 240 = 240 := by
    have := and_of_and hm (by decide : (248 : Nat) &&& 240 = 240)
    simpa using this
  unfold decode_next_UTF8 decode_4byte_UTF8
  rw [if_neg (by omega), if_neg (by omega), if_neg (by omega), if_neg (by omega),
      if_pos hm, if_neg (by omega), if_neg (by omega), if_pos hc]

/-! ## Claims C5 and C10: the UTF-8 codec -/

/-- Claim C5: for every byte buffer and starting position, `decode_next_UTF8`
rejects truncated multi-byte sequences at the end of the buffer, continuation
bytes whose top two bits are not `10`, overlong 2-, 3- and 4-byte encodings,
surrogate code points U+D800..U+DFFF encoded as 3-byte sequences, and 4-byte
sequences encoding scalars above U+10FFFF; whenever it rejects, the input
position (and output slot) is left unchanged. -/
theorem claim_C5_utf8_decode_rejections :
    (∀ (buf : List Nat) (s : DecPtr), (decode_next_UTF8 buf s).1 = false →
        (decode_next_UTF8 buf s).2 = s)
  ∧ (∀ (buf : List Nat) (s : DecPtr), s.pos < buf.length →
        buf.getD s.pos 0 &&& 224 = 192 → buf.length < s.pos + 2 →
        decode_next_UTF8 buf s = (false, s))
  ∧ (∀ (buf : List Nat) (s : DecPtr), s.pos < buf.length →
        buf.getD s.pos 0 &&& 240 = 224 → buf.length < s.pos + 3 →
        decode_next_UTF8 buf s = (false, s))
  ∧ (∀ (buf : List Nat) (s : DecPtr), s.pos < buf.length →
        buf.getD s.pos 0 &&& 248 = 240 → buf.length < s.pos + 4 →
        decode_next_UTF8 buf s = (false, s))
  ∧ (∀ (buf : List Nat) (s : DecPtr), s.pos < buf.length →
        buf.getD s.pos 0 &&& 224 = 192 → s.pos + 2 ≤ buf.length →
        ¬ (buf.getD (s.pos + 1) 0 &&& 192 = 128) →
        decode_next_UTF8 buf s = (false, s))
  ∧ (∀ (buf : List Nat) (s : DecPtr), s.pos < buf.length →
        buf.getD s.pos 0 &&& 240 = 224 → s.pos + 3 ≤ buf.length →
        (¬ (buf.getD (s.pos + 1) 0 &&& 192 = 128) ∨
         ¬ (buf.getD (s.pos + 2) 0 &&& 192 = 128)) →
        decode_next_UTF8 buf s = (false, s))
  ∧ (∀ (buf : List Nat) (s : DecPtr), s.pos < buf.length →
        buf.getD s.pos 0 &&& 248 = 240 → s.pos + 4 ≤ buf.length →
        (¬ (buf.getD (s.pos + 1) 0 &&& 192 = 128) ∨
         ¬ (buf.getD (s.pos + 2) 0 &&& 192 = 128) ∨
         ¬ (buf.getD (s.pos + 3) 0 &&& 192 = 128)) →
        decode_next_UTF8 buf s = (false, s))
  ∧ (∀ (pre rest : List Nat) (x y o : Nat), x < 32 → y < 64 →
        x * 64 + y < 128 →
        decode_next_UTF8 (pre ++ (192 + x) :: (128 + y) :: rest) ⟨pre.length, o⟩ =
          (false, ⟨pre.length, o⟩))
  ∧ (∀ (pre rest : List Nat) (x y z o : Nat), x < 16 → y < 64 → z < 64 →
        x * 4096 + y * 64 + z < 2048 →
        decode_next_UTF8 (pre ++ (224 + x) :: (128 + y) :: (128 + z) :: rest)
            ⟨pre.length, o⟩ = (false, ⟨pre.length, o⟩))
  ∧ (∀ (pre rest : List Nat) (x y z o : Nat), x < 16 → y < 64 → z < 64 →
        55296 ≤ x * 4096 + y * 64 + z → x * 4096 + y * 64 + z ≤ 57343 →
        decode_next_UTF8 (pre ++ (224 + x) :: (128 + y) :: (128 + z) :: rest)
            ⟨pre.length, o⟩ = (false, ⟨pre.length, o⟩))
  ∧ (∀ (pre rest : List Nat) (w x y z o : Nat), w < 8 → x < 64 → y < 64 → z < 64 →
        w * 262144 + x * 4096 + y * 64 + z < 65536 →
        decode_next_UTF8 (pre ++ (240 + w) :: (128 + x) :: (128 + y) :: (128 + z) :: rest)
            ⟨pre.length, o⟩ = (false, ⟨pre.length, o⟩))
  ∧ (∀ (pre rest : List Nat) (w x y z o : Nat), w < 8 → x < 64 → y < 64 → z < 64 →
        1114111 < w * 262144 + x * 4096 + y * 64 + z →
        decode_next_UTF8 (pre ++ (240 + w) :: (128 + x) :: (128 + y) :: (128 + z) :: rest)
            ⟨pre.length, o⟩ = (false, ⟨pre.length, o⟩)) := by
  refine ⟨fun buf s h => decode_next_fail_state h,
          fun buf s h0 hm hl => decode_next_truncated_2 h0 hm hl,
          fun buf s h0 hm hl => decode_next_truncated_3 h0 hm hl,
          fun buf s h0 hm hl => decode_next_truncated_4 h0 hm hl,
          fun buf s h0 hm hl hc => decode_next_badcont_2 h0 hm hl hc,
          fun buf s h0 hm hl hc => decode_next_badcont_3 h0 hm hl hc,
          fun buf s h0 hm hl hc => decode_next_badcont_4 h0 hm hl hc,
          ?_, ?_, ?_, ?_, ?_⟩
  · intro pre rest x y o hx hy hv
    rw [decode2_shape pre rest x y o hx hy, if_pos hv]
  · intro pre rest x y z o hx hy hz hv
    rw [decode3_shape pre rest x y z o hx hy hz, if_pos hv]
  · intro pre rest x y z o hx hy hz hv1 hv2
    rw [decode3_shape pre rest x y z o hx hy hz, if_neg (by omega), if_pos ⟨hv1, hv2⟩]
  · intro pre rest w x y z o hw hx hy hz hv
    rw [decode4_shape pre rest w x y z o hw hx hy hz, if_pos hv]
  · intro pre rest w x y z o hw hx hy hz hv
    rw [decode4_shape pre rest w x y z o hw hx hy hz, if_neg (by omega), if_pos hv]

/-- Witness for C5: concrete rejected inputs of each kind, with the position
left unchanged (a truncated 2-byte lead, truncated 3- and 4-byte sequences,
bad continuation bytes in each form, the overlong encodings `C0 80`,
`E0 80 80` and `F0 80 80 80`, the encoded surrogate `ED A0 80`, and
`F4 90 80 80`, which encodes a scalar beyond U+10FFFF). -/
theorem claim_C5_utf8_decode_rejections_witness :
    (decode_next_UTF8 [0xC3] ⟨0, 7⟩).2 = ⟨0, 7⟩
  ∧ decode_next_UTF8 [0xC3] ⟨0, 7⟩ = (false, ⟨0, 7⟩)
  ∧ decode_next_UTF8 [0xE2, 0x82] ⟨0, 0⟩ = (false, ⟨0, 0⟩)
  ∧ decode_next_UTF8 [0xF0, 0x9F, 0x98] ⟨0, 0⟩ = (false, ⟨0, 0⟩)
  ∧ decode_next_UTF8 [0xC3, 0x41] ⟨0, 0⟩ = (false, ⟨0, 0⟩)
  ∧ decode_next_UTF8 [0xE2, 0x82, 0x41] ⟨0, 0⟩ = (false, ⟨0, 0⟩)
  ∧ decode_next_UTF8 [0xF0, 0x41, 0x80, 0x80] ⟨0, 0⟩ = (false, ⟨0, 0⟩)
  ∧ decode_next_UTF8 [0xC0, 0x80] ⟨0, 0⟩ = (false, ⟨0, 0⟩)
  ∧ decode_next_UTF8 [0xE0, 0x80, 0x80] ⟨0, 0⟩ = (false, ⟨0, 0⟩)
  ∧ decode_next_UTF8 [0xED, 0xA0, 0x80] ⟨0, 0⟩ = (false, ⟨0, 0⟩)
  ∧ decode_next_UTF8 [0xF0, 0x80, 0x80, 0x80] ⟨0, 0⟩ = (false, ⟨0, 0⟩)
  ∧ decode_next_UTF8 [0xF4, 0x90, 0x80, 0x80] ⟨0, 0⟩ = (false, ⟨0, 0⟩) := by
  obtain ⟨p1, p2, p3, p4, p5, p6, p7, p8, p9, p10, p11, p12⟩ :=
    claim_C5_utf8_decode_rejections
  refine ⟨p1 [0xC3] ⟨0, 7⟩ (by decide),
          p2 [0xC3] ⟨0, 7⟩ (by decide) (by decide) (by decide),
          p3 [0xE2, 0x82] ⟨0, 0⟩ (by decide) (by decide) (by decide),
          p4 [0xF0, 0x9F, 0x98] ⟨0, 0⟩ (by decide) (by decide) (by decide),
          p5 [0xC3, 0x41] ⟨0, 0⟩ (by decide) (by decide) (by decide) (by decide),
          p6 [0xE2, 0x82, 0x41] ⟨0, 0⟩ (by decide) (by decide) (by decide)
            (by right; decide),
          p7 [0xF0, 0x41, 0x80, 0x80] ⟨0, 0⟩ (by decide) (by decide) (by decide)
            (by left; decide),
          ?_, ?_, ?_, ?_, ?_⟩
  · have := p8 [] [] 0 0 0 (by decide) (by decide) (by decide)
    simpa using this
  · have := p9 [] [] 0 0 0 0 (by decide) (by decide) (by decide) (by decide)
    simpa using this
  · have := p10 [] [] 13 32 0 0 (by decide) (by decide) (by decide) (by decide) (by decide)
    simpa using this
  · have := p11 [] [] 0 0 0 0 0 (by decide) (by decide) (by decide) (by decide) (by decide)
    simpa using this
  · have := p12 [] [] 4 16 0 0 0 (by decide) (by decide) (by decide) (by decide) (by decide)
    simpa using this

/-- Claim C10: for every scalar in `[0, 0x10FFFF]` outside the surrogate
range, encoding with `ustring_push` and decoding the produced bytes with
`decode_next_UTF8` succeeds, yields the same scalar, and consumes exactly
the produced bytes (for any following bytes and any prior output slot). -/
theorem claim_C10_utf8_encode_decode_roundtrip :
    ∀ c : Nat, c ≤ 0x10FFFF → (c < 0xD800 ∨ 0xDFFF < c) →
      ∃ enc, ustring_push_bytes c = some enc ∧ enc ≠ [] ∧
        ∀ (rest : List Nat) (o : Nat),
          decode_next_UTF8 (enc ++ rest) ⟨0, o⟩ = (true, ⟨enc.length, c⟩) := by
  intro c hle hsur
  by_cases h1 : c ≤ 0x7F
  · refine ⟨[c], push_bytes_1 h1, by simp, fun rest o => ?_⟩
    have := decode1_shape [] rest c o (by omega)
    simpa using this
  · by_cases h2 : c ≤ 0x7FF
    · refine ⟨[192 + c / 64, 128 + c % 64], push_bytes_2 (by omega) h2, by simp,
        fun rest o => ?_⟩
      have hd := decode2_shape [] rest (c / 64) (c % 64) o (by omega) (by omega)
      rw [if_neg (by omega)] at hd
      have hc : c / 64 * 64 + c % 64 = c := by omega
      rw [hc] at hd
      simpa using hd
    · by_cases h3 : c ≤ 0xFFFF
      · refine ⟨[224 + c / 4096, 128 + c / 64 % 64, 128 + c % 64],
          push_bytes_3 (by omega) h3, by simp, fun rest o => ?_⟩
        have hd := decode3_shape [] rest (c / 4096) (c / 64 % 64) (c % 64) o
          (by omega) (by omega) (by omega)
        have hc : c / 4096 * 4096 + c / 64 % 64 * 64 + c % 64 = c := by omega
        rw [hc, if_neg (by omega), if_neg (by omega)] at hd
        simpa using hd
      · refine ⟨[240 + c / 262144, 128 + c / 4096 % 64, 128 + c / 64 % 64, 128 + c % 64],
          push_bytes_4 (by omega) hle, by simp, fun rest o => ?_⟩
        have hd := decode4_shape [] rest (c / 262144) (c / 4096 % 64) (c / 64 % 64)
          (c % 64) o (by omega) (by omega) (by omega) (by omega)
        have hc : c / 262144 * 262144 + c / 4096 % 64 * 4096 + c / 64 % 64 * 64 + c % 64
            = c := by omega
        rw [hc, if_neg (by omega), if_neg (by omega)] at hd
        simpa using hd

/-- Witness for C10: the round trip at U+0041, U+00E9, U+20AC and U+1F600. -/
theorem claim_C10_utf8_encode_decode_roundtrip_witness :
    (∃ enc, ustring_push_bytes 0x41 = some enc ∧ enc ≠ [] ∧
      ∀ (rest : List Nat) (o : Nat),
        decode_next_UTF8 (enc ++ rest) ⟨0, o⟩ = (true, ⟨enc.length, 0x41⟩))
  ∧ (∃ enc, ustring_push_bytes 0xE9 = some enc ∧ enc ≠ [] ∧
      ∀ (rest : List Nat) (o : Nat),
        decode_next_UTF8 (enc ++ rest) ⟨0, o⟩ = (true, ⟨enc.length, 0xE9⟩))
  ∧ (∃ enc, ustring_push_bytes 0x20AC = some enc ∧ enc ≠ [] ∧
      ∀ (rest : List Nat) (o : Nat),
        decode_next_UTF8 (enc ++ rest) ⟨0, o⟩ = (true, ⟨enc.length, 0x20AC⟩))
  ∧ (∃ enc, ustring_push_bytes 0x1F600 = some enc ∧ enc ≠ [] ∧
      ∀ (rest : List Nat) (o : Nat),
        decode_next_UTF8 (enc ++ rest) ⟨0, o⟩ = (true, ⟨enc.length, 0x1F600⟩)) :=
  ⟨claim_C10_utf8_encode_decode_roundtrip 0x41 (by decide) (by decide),
   claim_C10_utf8_encode_decode_roundtrip 0xE9 (by decide) (by decide),
   claim_C10_utf8_encode_decode_roundtrip 0x20AC (by decide) (by decide),
   claim_C10_utf8_encode_decode_roundtrip 0x1F600 (by decide) (by decide)⟩

/-! ## Claims C2, C3 and C6: the escape decoder -/

theorem read_hex_lt {c d : Nat} (h : read_hex c = some d) : d < 16 := by
  unfold read_hex at h
  split_ifs at h <;> simp only [Option.some.injEq] at h <;> omega

/-- Claim C2 (code divergence): a string-literal body with no backslash is
not returned unchanged when it contains bytes at or above 0x80: each such
byte is treated as a code point of its own and re-encoded to two UTF-8
bytes.  The body `C3 A9` (the UTF-8 encoding of U+00E9) comes back as
`C3 83 C2 A9`; bodies consisting of ASCII bytes do pass through unchanged. -/
theorem claim_C2_unescape_reencodes_high_bytes :
    json_unescape_string [0xC3, 0xA9] = .ok [0xC3, 0x83, 0xC2, 0xA9]
  ∧ [0xC3, 0x83, 0xC2, 0xA9] ≠ [0xC3, 0xA9]
  ∧ json_unescape_string [0x61, 0x62] = .ok [0x61, 0x62] := by
  refine ⟨?_, by decide, ?_⟩
  · simp [json_unescape_string, json_unescape_loop, ustring_push, ustring_push_bytes]
    decide
  · simp [json_unescape_string, json_unescape_loop, ustring_push, ustring_push_bytes]

/-- Counterexample to claim C3: on the input consisting of a single final
backslash, `json_unescape_string` succeeds and returns a literal backslash
byte; it does not fail with `JSON_INVALID_ESCAPE`. -/
theorem claim_C3_counterexample :
    json_unescape_string [0x5C] = .ok [0x5C]
  ∧ json_unescape_string [0x5C] ≠ .fail .JSON_INVALID_ESCAPE := by
  constructor
  · simp [json_unescape_string, json_unescape_loop, ustring_push, ustring_push_bytes]
  · simp [json_unescape_string, json_unescape_loop, ustring_push, ustring_push_bytes]

/-- Claim C3 as amended: a backslash that is the final input byte, with no
following character, does not itself cause a failure.  The loop guard
`*src == '\\' && (src + 1 < end)` is false for it, so the scan takes the
literal-copy branch: whenever the loop reaches the trailing backslash,
whatever output it has accumulated so far, it appends the backslash to the
output as a literal byte and returns that output with success.  In
particular the one-byte input `5C` unescapes to the one-byte output `5C`
rather than failing with `JSON_INVALID_ESCAPE`.  An input ending in a
trailing backslash can still fail, but only because of its earlier bytes:
`5C 71 5C` fails with `JSON_INVALID_ESCAPE` from its leading `\q` escape,
not from the trailing backslash. -/
theorem claim_C3_trailing_backslash_copied :
    (∀ result : List Nat,
      json_unescape_loop [0x5C] result = .ok (result ++ [0x5C]))
  ∧ json_unescape_string [0x5C] = .ok [0x5C]
  ∧ json_unescape_string [0x5C, 0x71, 0x5C] = .fail .JSON_INVALID_ESCAPE := by
  refine ⟨?_, ?_, ?_⟩
  · intro result
    simp [json_unescape_loop, ustring_push, ustring_push_bytes]
  · simp [json_unescape_string, json_unescape_loop, ustring_push,
      ustring_push_bytes]
  · simp [json_unescape_string, json_unescape_loop, escape_char, ustring_push,
      ustring_push_bytes]

/-- Evaluation of `read_u16` on four hex digits in front of the input. -/
theorem read_u16_digits {h1 h2 h3 h4 d1 d2 d3 d4 : Nat} {rest : List Nat}
    (hx1 : read_hex h1 = some d1) (hx2 : read_hex h2 = some d2)
    (hx3 : read_hex h3 = some d3) (hx4 : read_hex h4 = some d4) :
    read_u16 (h1 :: h2 :: h3 :: h4 :: rest) =
      some (((d1 * 16 + d2) * 16 + d3) * 16 + d4, rest) := by
  have hd2 := read_hex_lt hx2
  have hd3 := read_hex_lt hx3
  have hd4 := read_hex_lt hx4
  unfold read_u16
  rw [if_neg (by simp)]
  simp only [read_u16_loop, hx1, hx2, hx3, hx4]
  have e0 : (0 : Nat) <<< 4 ||| d1 = d1 := by simp
  rw [e0, shl4, lor_eq_add_16 hd4, shl4, lor_eq_add_16 hd3, shl4, lor_eq_add_16 hd2]

/-- Unfolding of `read_utf16` when the first code unit is a high surrogate
and at least two bytes follow it. -/
theorem read_utf16_high {src : List Nat} {c b1 b2 : Nat} {r2 : List Nat}
    (h : read_u16 src = some (c, b1 :: b2 :: r2)) (hc1 : 0xD800 ≤ c)
    (hc2 : c ≤ 0xDBFF) :
    read_utf16 src =
      if b1 = 0x5C then
        if b2 = 0x75 then
          match read_u16 r2 with
          | none => none
          | some (pair, rest3) =>
            if pair < 0xDC00 ∨ 0xDFFF < pair then none
            else some (0x10000 + ((c - 0xD800) <<< 10) + (pair - 0xDC00), rest3)
        else none
      else none := by
  unfold read_utf16
  rw [h]
  simp only
  rw [if_neg (by omega), if_pos (by omega)]

theorem read_u16_short {bs : List Nat} (h : bs.length < 4) : read_u16 bs = none := by
  unfold read_u16
  rw [if_pos h]

/-- Claim C6: `\uXXXX` surrogate handling in the escape decoder.  A high
surrogate must be immediately followed by `\u` and four hex digits forming a
low surrogate, the pair combining to
`0x10000 + ((high - 0xD800) <<< 10) + (low - 0xDC00)` (so `😀`
decodes to U+1F600); a lone low surrogate, a high surrogate not followed by
`\u`, a high surrogate whose second code unit is not a low surrogate, and
fewer than four available hex digits are all rejected, and every rejection
of `read_utf16` is reported by `json_unescape_string` as
`JSON_INVALID_UNICODE`. -/
theorem claim_C6_surrogate_pair_decoding :
    (∀ (h1 h2 h3 h4 p1 p2 p3 p4 d1 d2 d3 d4 e1 e2 e3 e4 hi lo : Nat)
        (rest : List Nat),
      read_hex h1 = some d1 → read_hex h2 = some d2 → read_hex h3 = some d3 →
      read_hex h4 = some d4 → read_hex p1 = some e1 → read_hex p2 = some e2 →
      read_hex p3 = some e3 → read_hex p4 = some e4 →
      hi = ((d1 * 16 + d2) * 16 + d3) * 16 + d4 →
      lo = ((e1 * 16 + e2) * 16 + e3) * 16 + e4 →
      0xD800 ≤ hi → hi ≤ 0xDBFF → 0xDC00 ≤ lo → lo ≤ 0xDFFF →
      read_utf16 (h1 :: h2 :: h3 :: h4 :: 0x5C :: 0x75 :: p1 :: p2 :: p3 :: p4 :: rest)
        = some (0x10000 + ((hi - 0xD800) <<< 10) + (lo - 0xDC00), rest))
  ∧ json_unescape_string [0x5C, 0x75, 0x44, 0x38, 0x33, 0x44,
                          0x5C, 0x75, 0x44, 0x45, 0x30, 0x30]
      = .ok [0xF0, 0x9F, 0x98, 0x80]
  ∧ (∀ bs : List Nat, read_utf16 bs = none →
        json_unescape_string (0x5C :: 0x75 :: bs) = .fail .JSON_INVALID_UNICODE)
  ∧ (∀ (h1 h2 h3 h4 d1 d2 d3 d4 lo : Nat) (rest : List Nat),
      read_hex h1 = some d1 → read_hex h2 = some d2 → read_hex h3 = some d3 →
      read_hex h4 = some d4 →
      lo = ((d1 * 16 + d2) * 16 + d3) * 16 + d4 →
      0xDC00 ≤ lo → lo ≤ 0xDFFF →
      read_utf16 (h1 :: h2 :: h3 :: h4 :: rest) = none)
  ∧ (∀ (h1 h2 h3 h4 d1 d2 d3 d4 hi b1 b2 : Nat) (rest : List Nat),
      read_hex h1 = some d1 → read_hex h2 = some d2 → read_hex h3 = some d3 →
      read_hex h4 = some d4 →
      hi = ((d1 * 16 + d2) * 16 + d3) * 16 + d4 →
      0xD800 ≤ hi → hi ≤ 0xDBFF → ¬ (b1 = 0x5C ∧ b2 = 0x75) →
      read_utf16 (h1 :: h2 :: h3 :: h4 :: b1 :: b2 :: rest) = none)
  ∧ (∀ (h1 h2 h3 h4 p1 p2 p3 p4 d1 d2 d3 d4 e1 e2 e3 e4 hi lo : Nat)
        (rest : List Nat),
      read_hex h1 = some d1 → read_hex h2 = some d2 → read_hex h3 = some d3 →
      read_hex h4 = some d4 → read_hex p1 = some e1 → read_hex p2 = some e2 →
      read_hex p3 = some e3 → read_hex p4 = some e4 →
      hi = ((d1 * 16 + d2) * 16 + d3) * 16 + d4 →
      lo = ((e1 * 16 + e2) * 16 + e3) * 16 + e4 →
      0xD800 ≤ hi → hi ≤ 0xDBFF → (lo < 0xDC00 ∨ 0xDFFF < lo) →
      read_utf16 (h1 :: h2 :: h3 :: h4 :: 0x5C :: 0x75 :: p1 :: p2 :: p3 :: p4 :: rest)
        = none)
  ∧ (∀ bs : List Nat, bs.length < 4 → read_utf16 bs = none) := by
  refine ⟨?_, ?_, ?_, ?_, ?_, ?_, ?_⟩
  · intro h1 h2 h3 h4 p1 p2 p3 p4 d1 d2 d3 d4 e1 e2 e3 e4 hi lo rest
      hx1 hx2 hx3 hx4 hp1 hp2 hp3 hp4 hhi hlo hr1 hr2 hr3 hr4
    subst hhi hlo
    rw [read_utf16_high (read_u16_digits hx1 hx2 hx3 hx4) (by omega) (by omega)]
    simp only [reduceIte]
    rw [read_u16_digits hp1 hp2 hp3 hp4]
    simp only
    rw [if_neg (by omega)]
  · simp [json_unescape_string, json_unescape_loop, read_utf16, read_u16,
          read_u16_loop, read_hex, ustring_push, ustring_push_bytes]
    decide
  · intro bs hfail
    show json_unescape_loop (0x5C :: 0x75 :: bs) [] = .fail .JSON_INVALID_UNICODE
    simp only [json_unescape_loop, reduceIte]
    split
    · rfl
    next code rest2 heq =>
      rw [hfail] at heq
      exact absurd heq (by simp)
  · intro h1 h2 h3 h4 d1 d2 d3 d4 lo rest hx1 hx2 hx3 hx4 hlo hr1 hr2
    subst hlo
    unfold read_utf16
    rw [read_u16_digits hx1 hx2 hx3 hx4]
    simp only
    rw [if_neg (by omega), if_neg (by omega)]
  · intro h1 h2 h3 h4 d1 d2 d3 d4 hi b1 b2 rest hx1 hx2 hx3 hx4 hhi hr1 hr2 hne
    subst hhi
    rw [read_utf16_high (read_u16_digits hx1 hx2 hx3 hx4) (by omega) (by omega)]
    by_cases hb1 : b1 = 0x5C
    · have hb2 : ¬ (b2 = 0x75) := fun hb2 => hne ⟨hb1, hb2⟩
      simp only [if_pos hb1, if_neg hb2]
    · simp only [if_neg hb1]
  · intro h1 h2 h3 h4 p1 p2 p3 p4 d1 d2 d3 d4 e1 e2 e3 e4 hi lo rest
      hx1 hx2 hx3 hx4 hp1 hp2 hp3 hp4 hhi hlo hr1 hr2 hr3
    subst hhi hlo
    rw [read_utf16_high (read_u16_digits hx1 hx2 hx3 hx4) (by omega) (by omega)]
    simp only [reduceIte]
    rw [read_u16_digits hp1 hp2 hp3 hp4]
    simp only
    rw [if_pos (by omega)]
  · intro bs hlen
    unfold read_utf16
    rw [read_u16_short hlen]

/-- Witness for C6: the pair `😀` decodes to U+1F600; the lone low
surrogate `\uDC00`, the high surrogate `\uD83D` followed by two plain
characters, the pair `\uD83DA` with a non-surrogate second unit, and a
two-byte tail are all rejected. -/
theorem claim_C6_surrogate_pair_decoding_witness :
    read_utf16 [0x44, 0x38, 0x33, 0x44, 0x5C, 0x75, 0x44, 0x45, 0x30, 0x30]
      = some (0x1F600, [])
  ∧ json_unescape_string [0x5C, 0x75, 0x44, 0x43, 0x30, 0x30]
      = .fail .JSON_INVALID_UNICODE
  ∧ read_utf16 [0x44, 0x43, 0x30, 0x30] = none
  ∧ read_utf16 [0x44, 0x38, 0x33, 0x44, 0x41, 0x42] = none
  ∧ read_utf16 [0x44, 0x38, 0x33, 0x44, 0x5C, 0x75, 0x30, 0x30, 0x34, 0x31] = none
  ∧ read_utf16 [0x30, 0x30] = none := by
  obtain ⟨p1, p2, p3, p4, p5, p6, p7⟩ := claim_C6_surrogate_pair_decoding
  refine ⟨?_, ?_, ?_, ?_, ?_, ?_⟩
  · have := p1 0x44 0x38 0x33 0x44 0x44 0x45 0x30 0x30
      13 8 3 13 13 14 0 0 0xD83D 0xDE00 []
      (by decide) (by decide) (by decide) (by decide) (by decide) (by decide)
      (by decide) (by decide) (by decide) (by decide) (by decide) (by decide)
      (by decide) (by decide)
    simpa using this
  · have hr : read_utf16 [0x44, 0x43, 0x30, 0x30] = none :=
      p4 0x44 0x43 0x30 0x30 13 12 0 0 0xDC00 []
        (by decide) (by decide) (by decide) (by decide) (by decide) (by decide)
        (by decide)
    exact p3 [0x44, 0x43, 0x30, 0x30] hr
  · exact p4 0x44 0x43 0x30 0x30 13 12 0 0 0xDC00 []
      (by decide) (by decide) (by decide) (by decide) (by decide) (by decide)
      (by decide)
  · exact p5 0x44 0x38 0x33 0x44 13 8 3 13 0xD83D 0x41 0x42 []
      (by decide) (by decide) (by decide) (by decide) (by decide) (by decide)
      (by decide) (by decide)
  · exact p6 0x44 0x38 0x33 0x44 0x30 0x30 0x34 0x31
      13 8 3 13 0 0 4 1 0xD83D 0x0041 []
      (by decide) (by decide) (by decide) (by decide) (by decide) (by decide)
      (by decide) (by decide) (by decide) (by decide) (by decide) (by decide)
      (by left; decide)
  · exact p7 [0x30, 0x30] (by decide)

/-! ## Claims C7, C4 and C1: the value tree and the parse status -/

theorem object_add_members_replace :
    ∀ (pre post : List (List Nat × Json)) (k : List Nat) (v w : Json),
      (∀ p ∈ pre, p.1 ≠ k) →
      object_add_members (pre ++ (k, w) :: post) k v = pre ++ (k, v) :: post := by
  intro pre
  induction pre with
  | nil => intro post k v w _; simp [object_add_members]
  | cons hd tl ih =>
    intro post k v w hpre
    obtain ⟨k0, v0⟩ := hd
    have hne : k0 ≠ k := hpre (k0, v0) (by simp)
    simp only [List.cons_append, object_add_members, if_neg hne]
    exact congrArg (fun l => (k0, v0) :: l)
      (ih post k v w (fun p hp => hpre p (by simp [hp])))

theorem object_add_members_append :
    ∀ (members : List (List Nat × Json)) (k : List Nat) (v : Json),
      (∀ p ∈ members, p.1 ≠ k) →
      object_add_members members k v = members ++ [(k, v)] := by
  intro members
  induction members with
  | nil => intro k v _; simp [object_add_members]
  | cons hd tl ih =>
    intro k v hmem
    obtain ⟨k0, v0⟩ := hd
    have hne : k0 ≠ k := hmem (k0, v0) (by simp)
    simp only [object_add_members, if_neg hne, List.cons_append]
    exact congrArg (fun l => (k0, v0) :: l)
      (ih k v (fun p hp => hmem p (by simp [hp])))

theorem object_add_members_keys :
    ∀ (members : List (List Nat × Json)) (k : List Nat) (v : Json),
      (object_add_members members k v).map Prod.fst =
        if k ∈ members.map Prod.fst then members.map Prod.fst
        else members.map Prod.fst ++ [k] := by
  intro members
  induction members with
  | nil => intro k v; simp [object_add_members]
  | cons hd tl ih =>
    intro k v
    obtain ⟨k0, v0⟩ := hd
    by_cases he : k0 = k
    · subst he
      simp [object_add_members]
    · simp only [object_add_members, if_neg he, List.map_cons, ih k v]
      by_cases hm : k ∈ tl.map Prod.fst
      · rw [if_pos hm, if_pos (by simp [hm])]
      · rw [if_neg hm, if_neg (by simp [hm, Ne.symm he])]
        simp

/-- Claim C7: `json_object_add` preserves key uniqueness and insertion
order: an existing `strcmp`-equal key keeps its position and key while its
value is replaced; a fresh key is appended at the end; in particular adding
key `"a"` twice, with values `v1` then `v2`, leaves exactly the single
member `("a", v2)`, and key uniqueness of the member list is preserved. -/
theorem claim_C7_object_add_replace_or_append :
    (∀ (pre post : List (List Nat × Json)) (k : List Nat) (v w : Json),
      (∀ p ∈ pre, p.1 ≠ k) →
      json_object_add (.object (pre ++ (k, w) :: post)) k v =
        some (.object (pre ++ (k, v) :: post)))
  ∧ (∀ (members : List (List Nat × Json)) (k : List Nat) (v : Json),
      (∀ p ∈ members, p.1 ≠ k) →
      json_object_add (.object members) k v = some (.object (members ++ [(k, v)])))
  ∧ (∀ (members : List (List Nat × Json)) (k : List Nat) (v : Json),
      ((members.map Prod.fst).Nodup →
        ((object_add_members members k v).map Prod.fst).Nodup))
  ∧ (∀ v1 v2 : Json,
      (json_object_add (.object []) [0x61] v1).bind
          (fun o => json_object_add o [0x61] v2) =
        some (.object [([0x61], v2)])) := by
  refine ⟨?_, ?_, ?_, ?_⟩
  · intro pre post k v w hpre
    simp only [json_object_add, object_add_members_replace pre post k v w hpre]
  · intro members k v hmem
    simp only [json_object_add, object_add_members_append members k v hmem]
  · intro members k v hnd
    rw [object_add_members_keys members k v]
    by_cases hm : k ∈ members.map Prod.fst
    · rwa [if_pos hm]
    · rw [if_neg hm]
      simp only [List.nodup_append]
      refine ⟨hnd, by simp, ?_⟩
      intro a ha hb
      simp only [List.mem_singleton] at hb
      subst hb
      exact hm ha
  · intro v1 v2
    simp [json_object_add, object_add_members]

/-- Witness for C7 at concrete member lists. -/
theorem claim_C7_object_add_replace_or_append_witness :
    json_object_add (.object [([0x61], .null), ([0x62], .boolean true)]) [0x61]
        (.boolean false) =
      some (.object [([0x61], .boolean false), ([0x62], .boolean true)])
  ∧ json_object_add (.object [([0x61], .null)]) [0x62] (.boolean true) =
      some (.object [([0x61], .null), ([0x62], .boolean true)])
  ∧ ((object_add_members [([0x61], Json.null)] [0x62] .null).map Prod.fst).Nodup
  ∧ (json_object_add (.object []) [0x61] (.boolean false)).bind
        (fun o => json_object_add o [0x61] (.boolean true)) =
      some (.object [([0x61], .boolean true)]) := by
  obtain ⟨p1, p2, p3, p4⟩ := claim_C7_object_add_replace_or_append
  refine ⟨?_, ?_, ?_, p4 (.boolean false) (.boolean true)⟩
  · have := p1 [] [([0x62], .boolean true)] [0x61] (.boolean false) .null (by simp)
    simpa using this
  · have := p2 [([0x61], .null)] [0x62] (.boolean true) (by simp)
    simpa using this
  · exact p3 [([0x61], Json.null)] [0x62] .null (by simp)

/-- Claim C4 (modelled from the spec, see `json_array_remove`): an in-bounds
removal deletes exactly the indexed element, keeps earlier elements at their
indices, shifts later elements down one position in order, and shrinks the
length by one; an out-of-bounds removal fails with no effect.  Removing
index 1 from a three-element array keeps elements 0 and 2. -/
theorem claim_C4_array_remove :
    (∀ (items : List Json) (index : Nat), index < items.length →
      ∃ items2, json_array_remove (.array items) index = some (.array items2) ∧
        items2.length = items.length - 1 ∧
        (∀ i, i < index → items2[i]? = items[i]?) ∧
        (∀ i, index ≤ i → i < items2.length → items2[i]? = items[i + 1]?))
  ∧ (∀ (items : List Json) (index : Nat), items.length ≤ index →
      json_array_remove (.array items) index = none)
  ∧ (∀ a b c : Json, json_array_remove (.array [a, b, c]) 1 = some (.array [a, c]))
  ∧ (∀ a b c : Json, json_array_remove (.array [a, b, c]) 3 = none) := by
  refine ⟨?_, ?_, ?_, ?_⟩
  · intro items index hidx
    refine ⟨items.take index ++ items.drop (index + 1), ?_, ?_, ?_, ?_⟩
    · simp [json_array_remove, hidx]
    · simp only [List.length_append, List.length_take, List.length_drop]
      omega
    · intro i hi
      rw [List.getElem?_append_left (by simp only [List.length_take]; omega),
          List.getElem?_take_of_lt hi]
    · intro i hle hlt
      rw [List.getElem?_append_right (by simp only [List.length_take]; omega),
          List.getElem?_drop]
      congr 1
      simp only [List.length_take]
      omega
  · intro items index hidx
    simp only [json_array_remove]
    rw [if_neg (by omega)]
  · intro a b c
    simp [json_array_remove]
  · intro a b c
    simp [json_array_remove]

/-- Witness for C4 at a concrete array. -/
theorem claim_C4_array_remove_witness :
    (∃ items2, json_array_remove (.array [.null, .boolean true, .boolean false]) 1 =
        some (.array items2) ∧
      items2.length = 2 ∧
      (∀ i, i < 1 → items2[i]? = [Json.null, .boolean true, .boolean false][i]?) ∧
      (∀ i, 1 ≤ i → i < items2.length →
        items2[i]? = [Json.null, .boolean true, .boolean false][i + 1]?))
  ∧ json_array_remove (.array [Json.null, .boolean true, .boolean false]) 3 = none := by
  obtain ⟨p1, p2, p3, p4⟩ := claim_C4_array_remove
  exact ⟨p1 [Json.null, .boolean true, .boolean false] 1 (by simp),
         p2 [Json.null, .boolean true, .boolean false] 3 (by simp)⟩

/-- Claim C1 (code divergence): `json_parse` reports only two statuses.  On
success the status is `JSON_SUCCESS`; on every failure the status written is
`JSON_UNEXPECTED_CHARACTER` (src/json.c line 44), whatever the reason the
generated parser rejected the input, so `JSON_UNEXPECTED_FILE_END`,
`JSON_INVALID_ESCAPE` and `JSON_INVALID_UNICODE` are never reported (and
`scan_json_string`, src/json.c line 356, passes `NULL` as the error slot of
`json_unescape_string`, discarding escape-decoder statuses). -/
theorem claim_C1_parse_status_collapsed :
    (∀ yyresult : Option Json,
      (json_parse yyresult).2 = .JSON_SUCCESS ∨
      (json_parse yyresult).2 = .JSON_UNEXPECTED_CHARACTER)
  ∧ (∀ yyresult : Option Json, yyresult = none →
      (json_parse yyresult).1 = none ∧
      (json_parse yyresult).2 = .JSON_UNEXPECTED_CHARACTER ∧
      (json_parse yyresult).2 ≠ .JSON_UNEXPECTED_FILE_END ∧
      (json_parse yyresult).2 ≠ .JSON_INVALID_ESCAPE ∧
      (json_parse yyresult).2 ≠ .JSON_INVALID_UNICODE) := by
  constructor
  · intro yyresult
    match yyresult with
    | some root => left; rfl
    | none => right; rfl
  · intro yyresult h
    subst h
    refine ⟨rfl, rfl, by simp [json_parse], by simp [json_parse], by simp [json_parse]⟩

/-- Witness for C1: a failed parse reports `JSON_UNEXPECTED_CHARACTER`,
never `JSON_UNEXPECTED_FILE_END`. -/
theorem claim_C1_parse_status_collapsed_witness :
    (json_parse none).2 = .JSON_UNEXPECTED_CHARACTER ∧
    (json_parse none).2 ≠ .JSON_UNEXPECTED_FILE_END :=
  ⟨((claim_C1_parse_status_collapsed.2 none rfl).2.1),
   ((claim_C1_parse_status_collapsed.2 none rfl).2.2.1)⟩

/-! ## Claim C9: replacement markers while printing -/

theorem skip_continuation_spec : ∀ (l : List Nat) (s : Nat),
    ∃ k, skip_continuation l s = l.drop k ∧ k ≤ 3 - s ∧
      ∀ i, i < k → ∃ x, l[i]? = some x ∧ x &&& 0xC0 = 0x80 := by
  intro l
  induction l with
  | nil => intro s; exact ⟨0, by simp [skip_continuation], by omega, by omega⟩
  | cons b rest ih =>
    intro s
    simp only [skip_continuation]
    split
    next hcond =>
      obtain ⟨k, hk1, hk2, hk3⟩ := ih (s + 1)
      refine ⟨k + 1, by simpa using hk1, by omega, ?_⟩
      intro i hi
      match i with
      | 0 => exact ⟨b, by simp, hcond.2⟩
      | j + 1 =>
        obtain ⟨x, hx1, hx2⟩ := hk3 j (by omega)
        exact ⟨x, by simpa using hx1, hx2⟩
    · exact ⟨0, by simp, by omega, by omega⟩

/-- Claim C9: while printing a string, a decode failure at the current byte
is never an error: exactly one replacement marker is emitted, the failing
byte is skipped, and at most three further continuation-looking bytes (top
two bits `10`) are skipped before scanning resumes; the marker is the
U+FFFD bytes, or its ASCII escape in ASCII-only mode. -/
theorem claim_C9_print_invalid_byte_recovery :
    (∀ (b : Nat) (rest : List Nat) (ascii : Bool),
      decode_next_bytes (b :: rest) = none →
      json_print_string_loop (b :: rest) ascii =
        json_print_question_mark ascii ++
          json_print_string_loop (skip_continuation rest 0) ascii)
  ∧ (∀ (l : List Nat) (s : Nat),
      ∃ k, skip_continuation l s = l.drop k ∧ k ≤ 3 - s ∧
        ∀ i, i < k → ∃ x, l[i]? = some x ∧ x &&& 0xC0 = 0x80)
  ∧ json_print_question_mark true = [0x5C, 0x75, 0x46, 0x46, 0x46, 0x44]
  ∧ json_print_question_mark false = [0xEF, 0xBF, 0xBD] := by
  refine ⟨?_, skip_continuation_spec, rfl, rfl⟩
  intro b rest ascii h
  rw [json_print_string_loop]
  split
  · rfl
  next code n heq =>
    rw [h] at heq
    exact absurd heq (by simp)

/-- Witness for C9: the invalid two-continuation-byte input `80 80`. -/
theorem claim_C9_print_invalid_byte_recovery_witness :
    json_print_string_loop [0x80, 0x80] false =
      json_print_question_mark false ++
        json_print_string_loop (skip_continuation [0x80] 0) false
  ∧ (∃ k, skip_continuation [0x80] 0 = [0x80].drop k ∧ k ≤ 3 - 0 ∧
      ∀ i, i < k → ∃ x, [0x80][i]? = some x ∧ x &&& 0xC0 = 0x80)
  ∧ json_print_question_mark false = [0xEF, 0xBF, 0xBD] := by
  obtain ⟨p1, p2, p3, p4⟩ := claim_C9_print_invalid_byte_recovery
  exact ⟨p1 0x80 [0x80] false (by decide), p2 [0x80] 0, p4⟩

/-! ## Claim C8: the layout heuristic

The decisive observation is which renderings can contain a newline byte:
the multi-line opener always puts one out, while every scalar rendering is
newline-free (escapes and hex digits are ASCII above 0x0A; copied-through
string bytes are either a scalar at or above 0x20 or bytes of a multi-byte
sequence, all at or above 0x80). -/

theorem decode_2byte_success_cont {buf : List Nat} {s : DecPtr}
    (h : (decode_2byte_UTF8 buf s).1 = true) :
    buf.getD (s.pos + 1) 0 &&& 192 = 128 := by
  unfold decode_2byte_UTF8 at h
  dsimp only at h
  split_ifs at h <;> simp_all

theorem decode_3byte_success_cont {buf : List Nat} {s : DecPtr}
    (h : (decode_3byte_UTF8 buf s).1 = true) :
    buf.getD (s.pos + 1) 0 &&& 192 = 128 ∧ buf.getD (s.pos + 2) 0 &&& 192 = 128 := by
  unfold decode_3byte_UTF8 at h
  dsimp only at h
  split_ifs at h <;> simp_all

theorem decode_4byte_success_cont {buf : List Nat} {s : DecPtr}
    (h : (decode_4byte_UTF8 buf s).1 = true) :
    buf.getD (s.pos + 1) 0 &&& 192 = 128 ∧ buf.getD (s.pos + 2) 0 &&& 192 = 128 ∧
      buf.getD (s.pos + 3) 0 &&& 192 = 128 := by
  unfold decode_4byte_UTF8 at h
  dsimp only at h
  split_ifs at h <;> simp_all

theorem getElem?_of_getD {l : List Nat} {i : Nat} (h : i < l.length) :
    l[i]? = some (l.getD i 0) := by
  rw [List.getD_eq_getElem l 0 h, List.getElem?_eq_getElem h]

/-- What the bytes consumed by a successful decode look like: a single byte
equal to the scalar, or 2-4 bytes that are all at or above 0x80 (a lead byte
with high bits set followed by continuation bytes). -/
theorem decode_next_bytes_bytes {bs : List Nat} {code n : Nat}
    (h : decode_next_bytes bs = some (code, n)) :
    (n = 1 ∧ bs[0]? = some code) ∨
      (∀ i, i < n → ∃ x, bs[i]? = some x ∧ 128 ≤ x) := by
  unfold decode_next_bytes at h
  dsimp only at h
  split at h
  next htrue =>
    simp only [Option.some.injEq, Prod.mk.injEq] at h
    obtain ⟨hcode, hn⟩ := h
    have hs0 : ({ pos := 0, out := 0 } : DecPtr).pos = 0 := rfl
    unfold decode_next_UTF8 at htrue hcode hn
    dsimp only at htrue hcode hn
    split_ifs at htrue hcode hn
    · -- ASCII byte
      left
      dsimp only at hcode hn
      refine ⟨by omega, ?_⟩
      rw [getElem?_of_getD (by omega), hcode]
    · -- two-byte form
      next hlen hask hm =>
      right
      have hp := decode_2byte_success_pos htrue
      have hc := decode_2byte_success_cont htrue
      intro i hi
      match i with
      | 0 =>
        refine ⟨bs.getD 0 0, getElem?_of_getD (by omega), ?_⟩
        exact byte_high_of_and hm (by decide)
      | 1 =>
        refine ⟨bs.getD 1 0, getElem?_of_getD (by omega), ?_⟩
        exact byte_high_of_and hc (by decide)
      | j + 2 => omega
    · -- three-byte form
      next hlen hask hm2 hm =>
      right
      have hp := decode_3byte_success_pos htrue
      have hc := decode_3byte_success_cont htrue
      intro i hi
      match i with
      | 0 =>
        refine ⟨bs.getD 0 0, getElem?_of_getD (by omega), ?_⟩
        exact byte_high_of_and hm (by decide)
      | 1 =>
        refine ⟨bs.getD 1 0, getElem?_of_getD (by omega), ?_⟩
        exact byte_high_of_and hc.1 (by decide)
      | 2 =>
        refine ⟨bs.getD 2 0, getElem?_of_getD (by omega), ?_⟩
        exact byte_high_of_and hc.2 (by decide)
      | j + 3 => omega
    · -- four-byte form
      next hlen hask hm2 hm3 hm =>
      right
      have hp := decode_4byte_success_pos htrue
      have hc := decode_4byte_success_cont htrue
      intro i hi
      match i with
      | 0 =>
        refine ⟨bs.getD 0 0, getElem?_of_getD (by omega), ?_⟩
        exact byte_high_of_and hm (by decide)
      | 1 =>
        refine ⟨bs.getD 1 0, getElem?_of_getD (by omega), ?_⟩
        exact byte_high_of_and hc.1 (by decide)
      | 2 =>
        refine ⟨bs.getD 2 0, getElem?_of_getD (by omega), ?_⟩
        exact byte_high_of_and hc.2.1 (by decide)
      | 3 =>
        refine ⟨bs.getD 3 0, getElem?_of_getD (by omega), ?_⟩
        exact byte_high_of_and hc.2.2 (by decide)
      | j + 4 => omega
  next => exact absurd h (by simp)

theorem hex_digit_ge (d : Nat) : 0x30 ≤ hex_digit d := by
  unfold hex_digit
  split <;> omega

theorem newline_not_mem_hex4 (n : Nat) : (0x0A : Nat) ∉ hex4 n := by
  have h1 := hex_digit_ge (n % 0x10000 / 4096)
  have h2 := hex_digit_ge (n % 0x10000 / 256 % 16)
  have h3 := hex_digit_ge (n % 0x10000 / 16 % 16)
  have h4 := hex_digit_ge (n % 0x10000 % 16)
  intro hmem
  simp only [hex4, List.mem_cons, List.not_mem_nil, or_false] at hmem
  rcases hmem with h | h | h | h <;> omega

theorem newline_not_mem_print_escaped (code : Nat) :
    (0x0A : Nat) ∉ json_print_escaped code := by
  unfold json_print_escaped
  split <;>
    simp [List.mem_append, newline_not_mem_hex4]

theorem newline_not_mem_question_mark (ascii : Bool) :
    (0x0A : Nat) ∉ json_print_question_mark ascii := by
  cases ascii <;> decide

theorem newline_not_mem_print_string_loop (bs : List Nat) (ascii : Bool) :
    (0x0A : Nat) ∉ json_print_string_loop bs ascii := by
  suffices H : ∀ (L : Nat) (bs2 : List Nat), bs2.length ≤ L →
      (0x0A : Nat) ∉ json_print_string_loop bs2 ascii by
    exact H bs.length bs (Nat.le_refl _)
  intro L
  induction L with
  | zero =>
    intro bs2 hlen
    have : bs2 = [] := List.eq_nil_of_length_eq_zero (by omega)
    subst this
    simp [json_print_string_loop]
  | succ L ih =>
    intro bs2 hlen
    match bs2, hlen with
    | [], _ => simp [json_print_string_loop]
    | b :: rest, hlen =>
      intro hmem
      rw [json_print_string_loop] at hmem
      split at hmem
      next heq =>
        rw [List.mem_append] at hmem
        rcases hmem with hm | hm
        · exact newline_not_mem_question_mark ascii hm
        · have hsl := skip_continuation_length rest 0
          have := ih (skip_continuation rest 0)
            (by simp only [List.length_cons] at hlen; omega)
          exact this hm
      next code n heq =>
        have hpos := decode_next_bytes_pos heq
        rw [List.mem_append] at hmem
        rcases hmem with hm | hm
        · -- the rendered chunk for one decoded scalar
          split_ifs at hm with h1 h2 h3 h4 h5 h6 h7 h8 h9
          · exact absurd hm (by decide)
          · exact absurd hm (by decide)
          · exact absurd hm (by decide)
          · exact absurd hm (by decide)
          · exact absurd hm (by decide)
          · exact absurd hm (by decide)
          · exact absurd hm (by decide)
          · exact newline_not_mem_print_escaped code hm
          · exact newline_not_mem_print_escaped code hm
          · -- the raw-copy branch
            rcases decode_next_bytes_bytes heq with ⟨hn1, hb0⟩ | hall
            · subst hn1
              have ht1 : (b :: rest).take 1 = [b] := rfl
              rw [ht1, List.mem_singleton] at hm
              have hbc : b = code := by
                have h0 : (b :: rest)[0]? = some b := by simp
                rw [h0] at hb0
                simpa using hb0
              omega
            · obtain ⟨i, hi⟩ := List.mem_iff_getElem?.mp hm
              have hilt : i < n := by
                by_contra hge
                rw [List.getElem?_eq_none
                  (by simp only [List.length_take]; omega)] at hi
                exact absurd hi (by simp)
              obtain ⟨x, hx1, hx2⟩ := hall i hilt
              rw [List.getElem?_take_of_lt hilt, hx1] at hi
              have : x = 0x0A := by simpa using hi
              omega
        · have := ih ((b :: rest).drop n)
            (by simp only [List.length_drop, List.length_cons] at *; omega)
          exact this hm

theorem newline_not_mem_print_string (bs : List Nat) (ascii : Bool) :
    (0x0A : Nat) ∉ json_print_string bs ascii := by
  intro hmem
  simp only [json_print_string, List.mem_append, List.mem_singleton] at hmem
  rcases hmem with (hm | hm) | hm
  · omega
  · exact newline_not_mem_print_string_loop bs ascii hm
  · omega

theorem object_contains_eq_any (members : List (List Nat × Json)) :
    object_contains_object_or_array members =
      members.any fun m => value_is_aggregate m.2 := by
  induction members with
  | nil => rfl
  | cons hd tl ih =>
    obtain ⟨k, v⟩ := hd
    match v with
    | .object _ => simp [object_contains_object_or_array, value_is_aggregate]
    | .array _ => simp [object_contains_object_or_array, value_is_aggregate]
    | .str _ => simpa [object_contains_object_or_array, value_is_aggregate] using ih
    | .number _ => simpa [object_contains_object_or_array, value_is_aggregate] using ih
    | .boolean _ => simpa [object_contains_object_or_array, value_is_aggregate] using ih
    | .null => simpa [object_contains_object_or_array, value_is_aggregate] using ih

theorem array_contains_eq_any (items : List Json) :
    array_contains_object_or_array items = items.any value_is_aggregate := by
  induction items with
  | nil => rfl
  | cons v tl ih =>
    match v with
    | .object _ => simp [array_contains_object_or_array, value_is_aggregate]
    | .array _ => simp [array_contains_object_or_array, value_is_aggregate]
    | .str _ => simpa [array_contains_object_or_array, value_is_aggregate] using ih
    | .number _ => simpa [array_contains_object_or_array, value_is_aggregate] using ih
    | .boolean _ => simpa [array_contains_object_or_array, value_is_aggregate] using ih
    | .null => simpa [array_contains_object_or_array, value_is_aggregate] using ih

theorem intercalate_cons {α : Type} (sep x : List α) (xs : List (List α)) :
    List.intercalate sep (x :: xs) =
      x ++ (if xs.isEmpty then [] else sep ++ List.intercalate sep xs) := by
  match xs with
  | [] => simp [List.intercalate, List.intersperse]
  | y :: ys =>
    simp only [List.intercalate, List.intersperse, List.isEmpty_cons, List.flatten]
    simp

theorem not_mem_intercalate {α : Type} {a : α} (sep : List α) (xs : List (List α))
    (hsep : a ∉ sep) (hxs : ∀ x ∈ xs, a ∉ x) : a ∉ List.intercalate sep xs := by
  induction xs with
  | nil => simp [List.intercalate, List.intersperse]
  | cons x ys ih =>
    rw [intercalate_cons]
    intro hmem
    rw [List.mem_append] at hmem
    rcases hmem with hm | hm
    · exact hxs x (by simp) hm
    · split at hm
      · simp at hm
      · rw [List.mem_append] at hm
        rcases hm with hm | hm
        · exact hsep hm
        · exact ih (fun z hz => hxs z (by simp [hz])) hm

theorem print_object_members_single :
    ∀ (members : List (List Nat × Json)) (indent : Nat),
      print_object_members members indent false =
        List.intercalate [0x2C, 0x20] (members.map fun m =>
          json_print_string m.1 false ++ [0x3A, 0x20] ++
            json_print_indent m.2 (indent + 2)) := by
  intro members
  induction members with
  | nil => intro indent; simp [print_object_members, List.intercalate]
  | cons hd tl ih =>
    intro indent
    obtain ⟨k, v⟩ := hd
    rw [print_object_members, List.map_cons, intercalate_cons, ← ih indent]
    match tl with
    | [] => simp [print_object_members]
    | m :: ms => simp

theorem print_array_items_single :
    ∀ (items : List Json) (indent : Nat),
      print_array_items items indent false =
        List.intercalate [0x2C, 0x20]
          (items.map fun v => json_print_indent v (indent + 2)) := by
  intro items
  induction items with
  | nil => intro indent; simp [print_array_items, List.intercalate]
  | cons v tl ih =>
    intro indent
    rw [print_array_items, List.map_cons, intercalate_cons, ← ih indent]
    match tl with
    | [] => simp [print_array_items]
    | m :: ms => simp

theorem print_object_members_multi :
    ∀ (members : List (List Nat × Json)) (indent : Nat),
      print_object_members members indent true =
        ((with_last members).map fun p =>
          print_indent (indent + 2) ++ json_print_string p.1.1 false ++
            [0x3A, 0x20] ++ json_print_indent p.1.2 (indent + 2) ++
            (if p.2 then [] else [0x2C, 0x20]) ++ [0x0A]).flatten := by
  intro members
  induction members with
  | nil => intro indent; simp [print_object_members, with_last]
  | cons hd tl ih =>
    intro indent
    obtain ⟨k, v⟩ := hd
    match tl with
    | [] => simp [print_object_members, with_last]
    | m :: ms =>
      rw [print_object_members]
      rw [show with_last ((k, v) :: m :: ms) = ((k, v), false) :: with_last (m :: ms)
        from rfl]
      rw [List.map_cons, List.flatten_cons, ← ih indent]
      simp

theorem print_array_items_multi :
    ∀ (items : List Json) (indent : Nat),
      print_array_items items indent true =
        ((with_last items).map fun p =>
          print_indent (indent + 2) ++ json_print_indent p.1 (indent + 2) ++
            (if p.2 then [] else [0x2C, 0x20]) ++ [0x0A]).flatten := by
  intro items
  induction items with
  | nil => intro indent; simp [print_array_items, with_last]
  | cons v tl ih =>
    intro indent
    match tl with
    | [] => simp [print_array_items, with_last]
    | m :: ms =>
      rw [print_array_items]
      rw [show with_last (v :: m :: ms) = (v, false) :: with_last (m :: ms) from rfl]
      rw [List.map_cons, List.flatten_cons, ← ih indent]
      simp

theorem newline_not_mem_print_scalar (v : Json) (indent : Nat)
    (hagg : value_is_aggregate v = false)
    (hnum : ∀ t, v = Json.number t → (0x0A : Nat) ∉ t) :
    (0x0A : Nat) ∉ json_print_indent v indent := by
  match v with
  | .object _ => simp [value_is_aggregate] at hagg
  | .array _ => simp [value_is_aggregate] at hagg
  | .str s =>
    simp only [json_print_indent]
    exact newline_not_mem_print_string s false
  | .number t =>
    simp only [json_print_indent]
    exact hnum t rfl
  | .boolean b =>
    cases b <;> simp [json_print_indent]
  | .null => simp [json_print_indent]

theorem object_not_contains_all {members : List (List Nat × Json)}
    (h : object_contains_object_or_array members = false) :
    ∀ m ∈ members, value_is_aggregate m.2 = false := by
  rw [object_contains_eq_any] at h
  intro m hm
  have := List.any_eq_false.mp h m hm
  simpa using this

theorem array_not_contains_all {items : List Json}
    (h : array_contains_object_or_array items = false) :
    ∀ v ∈ items, value_is_aggregate v = false := by
  rw [array_contains_eq_any] at h
  intro v hv
  have := List.any_eq_false.mp h v hv
  simpa using this

/-- Claim C8: the layout heuristic.  An Object or Array prints multi-line
(one member or element per line, each line indented two spaces deeper than
its opener, the closing bracket at the parent's indentation) exactly when
the one-level test `*_contains_object_or_array` holds, which is equivalent
to some *immediate* child being an Object or Array; otherwise it prints on
a single line with `", "` separators.  The newline characterization makes
the equivalence observable: the rendering contains a newline byte iff an
immediate child is an aggregate (the number hypothesis reflects that `%f`
output never contains a newline). -/
theorem claim_C8_layout_heuristic :
    (∀ (members : List (List Nat × Json)) (indent : Nat),
      object_contains_object_or_array members = false →
      print_object members indent =
        [0x7B] ++ List.intercalate [0x2C, 0x20] (members.map fun m =>
          json_print_string m.1 false ++ [0x3A, 0x20] ++
            json_print_indent m.2 (indent + 2)) ++ [0x7D])
  ∧ (∀ (members : List (List Nat × Json)) (indent : Nat),
      object_contains_object_or_array members = true →
      print_object members indent =
        [0x7B, 0x0A] ++
        ((with_last members).map fun p =>
          print_indent (indent + 2) ++ json_print_string p.1.1 false ++
            [0x3A, 0x20] ++ json_print_indent p.1.2 (indent + 2) ++
            (if p.2 then [] else [0x2C, 0x20]) ++ [0x0A]).flatten ++
        print_indent indent ++ [0x7D])
  ∧ (∀ (items : List Json) (indent : Nat),
      array_contains_object_or_array items = false →
      print_array items indent =
        [0x5B] ++ List.intercalate [0x2C, 0x20]
          (items.map fun v => json_print_indent v (indent + 2)) ++ [0x5D])
  ∧ (∀ (items : List Json) (indent : Nat),
      array_contains_object_or_array items = true →
      print_array items indent =
        [0x5B, 0x0A] ++
        ((with_last items).map fun p =>
          print_indent (indent + 2) ++ json_print_indent p.1 (indent + 2) ++
            (if p.2 then [] else [0x2C, 0x20]) ++ [0x0A]).flatten ++
        print_indent indent ++ [0x5D])
  ∧ (∀ members : List (List Nat × Json),
      object_contains_object_or_array members = true ↔
        ∃ m ∈ members, value_is_aggregate m.2 = true)
  ∧ (∀ items : List Json,
      array_contains_object_or_array items = true ↔
        ∃ v ∈ items, value_is_aggregate v = true)
  ∧ (∀ (members : List (List Nat × Json)) (indent : Nat),
      (∀ m ∈ members, ∀ t, m.2 = Json.number t → (0x0A : Nat) ∉ t) →
      ((0x0A : Nat) ∈ print_object members indent ↔
        object_contains_object_or_array members = true))
  ∧ (∀ (items : List Json) (indent : Nat),
      (∀ v ∈ items, ∀ t, v = Json.number t → (0x0A : Nat) ∉ t) →
      ((0x0A : Nat) ∈ print_array items indent ↔
        array_contains_object_or_array items = true)) := by
  refine ⟨?_, ?_, ?_, ?_, ?_, ?_, ?_, ?_⟩
  · intro members indent h
    simp [print_object, h, print_object_members_single members indent]
  · intro members indent h
    simp [print_object, h, print_object_members_multi members indent]
  · intro items indent h
    simp [print_array, h, print_array_items_single items indent]
  · intro items indent h
    simp [print_array, h, print_array_items_multi items indent]
  · intro members
    rw [object_contains_eq_any]
    simp [List.any_eq_true]
  · intro items
    rw [array_contains_eq_any]
    simp [List.any_eq_true]
  · intro members indent hnum
    by_cases h : object_contains_object_or_array members = true
    · refine iff_of_true ?_ h
      simp [print_object, h]
    · have hf : object_contains_object_or_array members = false := by
        simpa using h
      refine iff_of_false ?_ h
      intro hmem
      have hobj : print_object members indent =
          [0x7B] ++ print_object_members members indent false ++ [0x7D] := by
        simp [print_object, hf]
      rw [hobj, print_object_members_single] at hmem
      simp only [List.mem_append, List.mem_singleton] at hmem
      rcases hmem with (hm | hm) | hm
      · simp at hm
      · refine not_mem_intercalate _ _ (by decide) ?_ hm
        intro x hx
        simp only [List.mem_map] at hx
        obtain ⟨m, hmm, hxe⟩ := hx
        subst hxe
        intro hmx
        simp only [List.mem_append] at hmx
        rcases hmx with (hk | hc) | hv
        · exact newline_not_mem_print_string m.1 false hk
        · simp at hc
        · exact newline_not_mem_print_scalar m.2 (indent + 2)
            (object_not_contains_all hf m hmm) (fun t ht => hnum m hmm t ht) hv
      · omega
  · intro items indent hnum
    by_cases h : array_contains_object_or_array items = true
    · refine iff_of_true ?_ h
      simp [print_array, h]
    · have hf : array_contains_object_or_array items = false := by
        simpa using h
      refine iff_of_false ?_ h
      intro hmem
      have harr : print_array items indent =
          [0x5B] ++ print_array_items items indent false ++ [0x5D] := by
        simp [print_array, hf]
      rw [harr, print_array_items_single] at hmem
      simp only [List.mem_append, List.mem_singleton] at hmem
      rcases hmem with (hm | hm) | hm
      · simp at hm
      · refine not_mem_intercalate _ _ (by decide) ?_ hm
        intro x hx
        simp only [List.mem_map] at hx
        obtain ⟨v, hvv, hxe⟩ := hx
        subst hxe
        exact newline_not_mem_print_scalar v (indent + 2)
          (array_not_contains_all hf v hvv) (fun t ht => hnum v hvv t ht)
      · omega

/-- Witness for C8: `1` and `2` here are the `%f` renderings `1.000000` and
`2.000000`.  The object of two number members prints with no newline
(single line); the object whose member holds an array prints with a newline
(multi-line), matching the one-level aggregate test on each. -/
theorem claim_C8_layout_heuristic_witness :
    ((0x0A : Nat) ∉ print_object
      [([0x61], Json.number [0x31, 0x2E, 0x30, 0x30, 0x30, 0x30, 0x30, 0x30]),
       ([0x62], Json.number [0x32, 0x2E, 0x30, 0x30, 0x30, 0x30, 0x30, 0x30])] 0)
  ∧ ((0x0A : Nat) ∈ print_object
      [([0x61], Json.array [Json.number [0x31], Json.number [0x32]])] 0)
  ∧ object_contains_object_or_array
      [([0x61], Json.number [0x31, 0x2E, 0x30, 0x30, 0x30, 0x30, 0x30, 0x30]),
       ([0x62], Json.number [0x32, 0x2E, 0x30, 0x30, 0x30, 0x30, 0x30, 0x30])] = false
  ∧ object_contains_object_or_array
      [([0x61], Json.array [Json.number [0x31], Json.number [0x32]])] = true := by
  obtain ⟨p1, p2, p3, p4, p5, p6, p7, p8⟩ := claim_C8_layout_heuristic
  refine ⟨?_, ?_, by decide, by decide⟩
  · intro hmem
    have hiff := p7
      [([0x61], Json.number [0x31, 0x2E, 0x30, 0x30, 0x30, 0x30, 0x30, 0x30]),
       ([0x62], Json.number [0x32, 0x2E, 0x30, 0x30, 0x30, 0x30, 0x30, 0x30])] 0
      (by
        intro m hm t ht
        simp only [List.mem_cons, List.not_mem_nil, or_false] at hm
        rcases hm with rfl | rfl <;>
          · injection ht with h
            subst h
            decide)
    rw [hiff] at hmem
    exact absurd hmem (by decide)
  · have hiff := p7 [([0x61], Json.array [Json.number [0x31], Json.number [0x32]])] 0
      (by
        intro m hm t ht
        simp only [List.mem_cons, List.not_mem_nil, or_false] at hm
        subst hm
        exact absurd ht (by simp))
    rw [hiff]
    decide

end IslandJSON
